import Mathlib

/-!
# Star-schema ETL (src/etl.js): shallow embedding

The transformation methods of the class `StarSchemaETL` are embedded as pure
functions.  The module-level collections `customers`, `movies`, `transactions`
and `transaction_items`, which the methods read as ambient globals, become
explicit list arguments; the literal collections of the source are kept under
their own names and are used for the statements about the sample data.

Modelling conventions

* Ids are JavaScript numbers holding integers: `Int`, compared with `===`.
* Prices and discounts of the source records are finite numbers: `ℚ`.  A
  field holds the value of the number, which for a number of a program is a
  double (`JSNumber.IsDouble`); the statements range over all rationals and
  say so where they need a double.  The
  arithmetic of the fact builder is that of IEEE 754 binary64: every
  operation is the exact rational result rounded to the nearest double, ties
  to even (`JSNumber.toDouble`), with gradual underflow and overflow to an
  infinity.  Computed measures live in `JSNumber` (finite, `Infinity`,
  `-Infinity`, `NaN`).  The two zeros are one value; a zero divisor is `+0`.
* `new Date(s)` depends on the host (time zone, parsing of non-ISO strings):
  it is a parameter `newDate : String → JSDate`; a `JSDate` carries what the
  getters used by the source return.  Timestamps are taken to be valid, so
  `toISOString` does not raise.  The text produced by `toISOString`, the
  `split` and the `replace` are modelled concretely.
* A JavaScript `Set` is an insertion-ordered list without repetitions.
* A property read on `undefined` raises a `TypeError`; a method that may raise
  returns `Except JSError _`.
-/

set_option autoImplicit false

namespace StarSchemaETL

/-! ## Source records -/

/-- An element of `customers`. -/
structure Customer where
  id : Int
  name : String
  gender : String
  deriving DecidableEq

/-- An element of `movies`. -/
structure Movie where
  id : Int
  title : String
  price : ℚ
  deriving DecidableEq

/-- An element of `transactions`. -/
structure Transaction where
  id : Int
  date : String
  location : String
  customer_id : Int
  deriving DecidableEq

/-- An element of `transaction_items`. -/
structure TransactionItem where
  movie_id : Int
  transaction_id : Int
  price : ℚ
  discount : ℚ
  deriving DecidableEq

/-- The literal `customers` of the source. -/
def customers : List Customer :=
  [ { id := 101, name := "Alice", gender := "P" },
    { id := 102, name := "Bob", gender := "L" },
    { id := 103, name := "Charlie", gender := "L" },
    { id := 104, name := "David", gender := "M" } ]

/-- The literal `movies` of the source. -/
def movies : List Movie :=
  [ { id := 201, title := "Inception", price := 5 },
    { id := 202, title := "The Dark Knight", price := 9 / 2 },
    { id := 203, title := "Interstellar", price := 6 },
    { id := 204, title := "Tenet", price := 11 / 2 },
    { id := 205, title := "Dunkirk", price := 4 } ]

/-- The literal `transactions` of the source. -/
def transactions : List Transaction :=
  [ { id := 1, date := "2023-10-01 10:00:00", location := "Cinema A", customer_id := 101 },
    { id := 2, date := "2023-10-01 12:30:00", location := "Cinema B", customer_id := 102 },
    { id := 3, date := "2023-10-02 15:00:00", location := "Cinema A", customer_id := 101 },
    { id := 4, date := "2023-10-03 11:00:00", location := "Online", customer_id := 103 } ]

/-- The literal `transaction_items` of the source. -/
def transaction_items : List TransactionItem :=
  [ { movie_id := 201, transaction_id := 1, price := 5, discount := 1 / 2 },
    { movie_id := 202, transaction_id := 1, price := 9 / 2, discount := 0 },
    { movie_id := 203, transaction_id := 2, price := 6, discount := 1 / 2 },
    { movie_id := 202, transaction_id := 2, price := 9 / 2, discount := 0 },
    { movie_id := 204, transaction_id := 3, price := 11 / 2, discount := 1 / 4 },
    { movie_id := 205, transaction_id := 3, price := 4, discount := 0 },
    { movie_id := 201, transaction_id := 4, price := 5, discount := 3 / 4 } ]

/-! ## JavaScript numbers -/

/-- A JavaScript number: a finite value or one of the three non-finite ones. -/
inductive JSNumber where
  | fin (q : ℚ)
  | posInf
  | negInf
  | nan
  deriving DecidableEq

namespace JSNumber

/-- The test `Number.isFinite`. -/
def isFinite : JSNumber → Bool
  | fin _ => true
  | _ => false

/-- The integer nearest to `y`, the even one of the two when `y` lies halfway. -/
def roundHalfEven (y : ℚ) : ℤ :=
  if y - ⌊y⌋ < 1 / 2 then ⌊y⌋
  else if 1 / 2 < y - ⌊y⌋ then ⌊y⌋ + 1
  else if ⌊y⌋ % 2 = 0 then ⌊y⌋ else ⌊y⌋ + 1

/-- The exponent `k` of the spacing `2 ^ k` of the doubles around `x`: 52 below
the binary exponent of `x`, and never below that of the subnormal numbers. -/
def ulpExponent (x : ℚ) : ℤ := max (Int.log 2 |x|) (-1022) - 52

/-- The double nearest to the rational `x`, ties to even; a result of
magnitude `2 ^ 1024` or more is the infinity of the sign of `x`. -/
def toDouble (x : ℚ) : JSNumber :=
  if (2 : ℚ) ^ 1024 ≤ |(roundHalfEven (x / 2 ^ ulpExponent x) : ℚ) * 2 ^ ulpExponent x| then
    if 0 < x then posInf else negInf
  else fin (roundHalfEven (x / 2 ^ ulpExponent x) * 2 ^ ulpExponent x)

/-- The rational `x` is a finite double: an integer of magnitude below
`2 ^ 53` times a power of two with exponent from `-1074` to `971`. -/
def IsDouble (x : ℚ) : Prop :=
  ∃ m e : ℤ, m.natAbs < 2 ^ 53 ∧ -1074 ≤ e ∧ e ≤ 971 ∧ x = m * 2 ^ e

/-- The operator `-`. -/
def sub : JSNumber → JSNumber → JSNumber
  | fin a, fin b => toDouble (a - b)
  | fin _, posInf => negInf
  | fin _, negInf => posInf
  | posInf, fin _ => posInf
  | posInf, negInf => posInf
  | negInf, fin _ => negInf
  | negInf, posInf => negInf
  | _, _ => nan

/-- The operator `/`: a zero divisor gives `NaN` for a zero dividend and the
infinity of the sign of the dividend otherwise. -/
def div : JSNumber → JSNumber → JSNumber
  | fin a, fin b =>
    if b = 0 then
      if a = 0 then nan else if 0 < a then posInf else negInf
    else toDouble (a / b)
  | fin _, posInf => fin 0
  | fin _, negInf => fin 0
  | posInf, fin b => if b < 0 then negInf else posInf
  | negInf, fin b => if b < 0 then posInf else negInf
  | _, _ => nan

/-- The operator `*`. -/
def mul : JSNumber → JSNumber → JSNumber
  | fin a, fin b => toDouble (a * b)
  | fin a, posInf => if a = 0 then nan else if 0 < a then posInf else negInf
  | fin a, negInf => if a = 0 then nan else if 0 < a then negInf else posInf
  | posInf, fin b => if b = 0 then nan else if 0 < b then posInf else negInf
  | negInf, fin b => if b = 0 then nan else if 0 < b then negInf else posInf
  | posInf, posInf => posInf
  | negInf, negInf => posInf
  | posInf, negInf => negInf
  | negInf, posInf => negInf
  | _, _ => nan

/-- The integer `n` of `Number.prototype.toFixed` for two fraction digits and
a non-negative argument, divided by `100`: `n / 100 - x` is as close to zero
as possible and of two such `n` the larger is taken. -/
def roundCents (x : ℚ) : ℚ := (⌊x * 100 + 1 / 2⌋ : ℤ) / 100

/-- The composition `parseFloat(x.toFixed(2))`.  `toFixed` prints a non-finite
number by name, treats a negative number through its absolute value, prints a
number of magnitude `10^21` or more in full and any other number as the
decimal `n / 100` nearest to its exact value; `parseFloat` reads the name or
the full print back and reads a decimal as the double nearest to it. -/
def toFixed2 : JSNumber → JSNumber
  | fin q =>
    if q < 0 then
      if (10 : ℚ) ^ 21 ≤ -q then fin q else toDouble (-(roundCents (-q)))
    else
      if (10 : ℚ) ^ 21 ≤ q then fin q else toDouble (roundCents q)
  | x => x

end JSNumber

/-! ## Dates -/

/-- What the source observes of a `Date` object: the UTC calendar date that
`toISOString` prints and the values of the local-time getters. -/
structure JSDate where
  utcYear : Int
  utcMonth : Nat
  utcDay : Nat
  getDate : Nat
  getMonth : Nat
  getFullYear : Int
  getDay : Nat
  weekdayLong : String
  monthLong : String
  utcYear_range : -271821 ≤ utcYear ∧ utcYear ≤ 275760
  utcMonth_range : 1 ≤ utcMonth ∧ utcMonth ≤ 12
  utcDay_range : 1 ≤ utcDay ∧ utcDay ≤ 31

/-- The decimal digit of the units of `n`. -/
def digitChar (n : Nat) : Char := Char.ofNat (48 + n % 10)

/-- The last `w` decimal digits of `n`, most significant first. -/
def padDigits : Nat → Nat → List Char
  | 0, _ => []
  | w + 1, n => padDigits w (n / 10) ++ [digitChar n]

/-- The year of `toISOString`: four digits for the years 0 to 9999, otherwise
a sign and six digits. -/
def isoYear (y : Int) : List Char :=
  if 0 ≤ y ∧ y ≤ 9999 then padDigits 4 y.toNat
  else (if y < 0 then '-' else '+') :: padDigits 6 y.natAbs

/-- The text `date.toISOString().split("T")[0]`. -/
def isoDatePart (d : JSDate) : String :=
  String.mk (isoYear d.utcYear ++ '-' :: padDigits 2 d.utcMonth ++ '-' :: padDigits 2 d.utcDay)

/-- The text of `s` with every dash removed: the global `replace` of the source. -/
def removeDashes (s : String) : String :=
  String.mk (s.data.filter (fun c => c != '-'))

/-- The year of a date key: the year of `toISOString` without its sign when
that is a dash. -/
def keyYear (y : Int) : List Char :=
  if 0 ≤ y ∧ y ≤ 9999 then padDigits 4 y.toNat
  else if y < 0 then padDigits 6 y.natAbs else '+' :: padDigits 6 y.natAbs

/-! ## Sets and strings -/

/-- The method `Set.prototype.add` on an insertion-ordered set. -/
def setAdd {α : Type} [DecidableEq α] (s : List α) (x : α) : List α :=
  if x ∈ s then s else s ++ [x]

/-- The constructor `new Set(xs)` followed by a spread or `Array.from`. -/
def setFromList {α : Type} [DecidableEq α] (xs : List α) : List α :=
  xs.foldl setAdd []

/-- The characters removed by `String.prototype.trim`: white space and line
terminators. -/
def isTrimChar (c : Char) : Bool :=
  let n := c.toNat
  n = 0x09 || n = 0x0A || n = 0x0B || n = 0x0C || n = 0x0D || n = 0x20 || n = 0xA0 ||
  n = 0x1680 || (0x2000 ≤ n && n ≤ 0x200A) || n = 0x2028 || n = 0x2029 || n = 0x202F ||
  n = 0x205F || n = 0x3000 || n = 0xFEFF

/-- The method `String.prototype.trim`. -/
def jsTrim (s : String) : String :=
  String.mk ((s.data.dropWhile isTrimChar).reverse.dropWhile isTrimChar).reverse

/-! ## Dimension rows and builders -/

/-- A row of `dim_date`. -/
structure DateDimRow where
  date_key : String
  full_date : String
  day : Nat
  month : Nat
  quarter : Nat
  year : Int
  day_of_week : Nat
  day_name : String
  month_name : String
  is_weekend : Nat

/-- The method `transformDateDimension`. -/
def transformDateDimension (newDate : String → JSDate) (ts : List Transaction) :
    List DateDimRow :=
  let dateSet := ts.foldl (fun s transaction => setAdd s (isoDatePart (newDate transaction.date))) []
  dateSet.map fun dateStr =>
    let date := newDate dateStr
    { date_key := removeDashes dateStr
      full_date := dateStr
      day := date.getDate
      month := date.getMonth + 1
      quarter := (date.getMonth + 3) / 3
      year := date.getFullYear
      day_of_week := date.getDay
      day_name := date.weekdayLong
      month_name := date.monthLong
      is_weekend := if date.getDay ∈ [0, 6] then 1 else 0 }

/-- A row of `dim_customer`. -/
structure CustomerDimRow where
  customer_key : Int
  customer_id : Int
  customer_name : String
  gender : String
  deriving DecidableEq

/-- The method `transformCustomerDimension`. -/
def transformCustomerDimension (cs : List Customer) : List CustomerDimRow :=
  cs.map fun customer =>
    let originalGender := customer.gender
    let gender :=
      if originalGender = "F" ∨ originalGender = "M" then originalGender
      else if originalGender = "P" then "F" else "M"
    { customer_key := customer.id
      customer_id := customer.id
      customer_name := jsTrim customer.name
      gender := gender }

/-- The method `getPriceCategory`. -/
def getPriceCategory (price : ℚ) : String :=
  if price < 9 / 2 then "Budget"
  else if price < 11 / 2 then "Standard"
  else "Premium"

/-- A row of `dim_movie`. -/
structure MovieDimRow where
  movie_key : Int
  movie_id : Int
  movie_title : String
  base_price : ℚ
  price_category : String
  deriving DecidableEq

/-- The method `transformMovieDimension`. -/
def transformMovieDimension (ms : List Movie) : List MovieDimRow :=
  ms.map fun movie =>
    { movie_key := movie.id
      movie_id := movie.id
      movie_title := jsTrim movie.title
      base_price := movie.price
      price_category := getPriceCategory movie.price }

/-- The value of `regions[location] || "Unknown"`: a text, or a member that
the object literal inherits from `Object.prototype`. -/
inductive RegionValue where
  | text (s : String)
  | inherited (property : String)
  deriving DecidableEq

/-- The property names every object literal inherits. -/
def objectPrototypeNames : List String :=
  ["constructor", "__defineGetter__", "__defineSetter__", "hasOwnProperty",
   "__lookupGetter__", "__lookupSetter__", "isPrototypeOf", "propertyIsEnumerable",
   "toString", "valueOf", "__proto__", "toLocaleString"]

/-- The method `getRegion`. -/
def getRegion (location : String) : RegionValue :=
  if location = "Cinema A" then .text "North Region"
  else if location = "Cinema B" then .text "South Region"
  else if location = "Online" then .text "Online"
  else if location ∈ objectPrototypeNames then .inherited location
  else .text "Unknown"

/-- A row of `dim_location`. -/
structure LocationDimRow where
  location_key : Nat
  location_name : String
  location_type : String
  region : RegionValue
  deriving DecidableEq

/-- The method `transformLocationDimension`. -/
def transformLocationDimension (ts : List Transaction) : List LocationDimRow :=
  let locations := setFromList (ts.map fun t => t.location)
  locations.enum.map fun p =>
    { location_key := p.1 + 1
      location_name := p.2
      location_type := if p.2 = "Online" then "Online" else "Physical"
      region := getRegion p.2 }

/-! ## Fact rows -/

/-- A row of `fact_sales`. -/
structure FactRow where
  date_key : String
  customer_key : Int
  movie_key : Int
  location_key : Nat
  transaction_id : Int
  quantity : Nat
  base_price : ℚ
  discount_amount : ℚ
  final_price : JSNumber
  discount_percentage : JSNumber
  profit_margin : JSNumber
  deriving DecidableEq

/-- The exception raised by reading `property` of `undefined`: the `TypeError`
whose message names that property and nothing else of the program state. -/
inductive JSError where
  | typeError (property : String)
  deriving DecidableEq

/-- The callback of `transaction_items.map` in `transformFactSales`.  The
statements run in source order.  The callback of the third `find` reads
`transaction.customer_id`: with no transaction found that read raises on the
first customer, and with no customer in the list it is never run, so that the
next statement raises, which reads `transaction.date`.  The fields of the
object literal then read `customer.id`, `movie.id` and
`locationDim.location_key` in this order. -/
def factRow (newDate : String → JSDate) (cs : List Customer) (ms : List Movie)
    (ts : List Transaction) (item : TransactionItem) : Except JSError FactRow :=
  let transaction := ts.find? fun t => t.id == item.transaction_id
  let movie := ms.find? fun m => m.id == item.movie_id
  match transaction with
  | none =>
    match cs with
    | _ :: _ => .error (.typeError "customer_id")
    | [] => .error (.typeError "date")
  | some transaction =>
    let customer := cs.find? fun c => c.id == transaction.customer_id
    let transactionDate := newDate transaction.date
    let dateKey := removeDashes (isoDatePart transactionDate)
    let locationDim :=
      (transformLocationDimension ts).find? fun l => l.location_name == transaction.location
    match customer with
    | none => .error (.typeError "id")
    | some customer =>
      match movie with
      | none => .error (.typeError "id")
      | some movie =>
        match locationDim with
        | none => .error (.typeError "location_key")
        | some locationDim =>
          .ok
            { date_key := dateKey
              customer_key := customer.id
              movie_key := movie.id
              location_key := locationDim.location_key
              transaction_id := transaction.id
              quantity := 1
              base_price := item.price
              discount_amount := item.discount
              final_price :=
                JSNumber.toFixed2 (JSNumber.sub (.fin item.price) (.fin item.discount))
              discount_percentage :=
                JSNumber.toFixed2
                  (JSNumber.mul (JSNumber.div (.fin item.discount) (.fin item.price)) (.fin 100))
              profit_margin :=
                JSNumber.toFixed2
                  (JSNumber.mul
                    (JSNumber.div (JSNumber.sub (.fin item.price) (.fin item.discount))
                      (.fin item.price))
                    (.fin 100)) }

/-- The call `xs.map(f)` for a callback that may raise: the elements are
visited in order and the first exception ends the call. -/
def mapExcept {α β ε : Type} (f : α → Except ε β) : List α → Except ε (List β)
  | [] => .ok []
  | x :: xs =>
    match f x with
    | .error e => .error e
    | .ok y =>
      match mapExcept f xs with
      | .error e => .error e
      | .ok ys => .ok (y :: ys)

/-- The method `transformFactSales`. -/
def transformFactSales (newDate : String → JSDate) (cs : List Customer) (ms : List Movie)
    (ts : List Transaction) (items : List TransactionItem) : Except JSError (List FactRow) :=
  mapExcept (factRow newDate cs ms ts) items

/-- Every reference of `item` resolves: its `transaction_id` is the id of a
transaction, the `customer_id` of that transaction (the first with that id, the
one `find` returns) is the id of a customer, and its `movie_id` is the id of a
movie. -/
def Resolves (cs : List Customer) (ms : List Movie) (ts : List Transaction)
    (item : TransactionItem) : Prop :=
  (∃ t, ts.find? (fun t => t.id == item.transaction_id) = some t ∧
    ∃ c ∈ cs, c.id = t.customer_id) ∧
  ∃ m ∈ ms, m.id = item.movie_id

/-- The profit margin in the words of the specification,
`round(final_price / price * 100, 2)`, computed from the already rounded
`final_price` of the row. -/
def specProfitMargin (finalPrice : JSNumber) (price : ℚ) : JSNumber :=
  JSNumber.toFixed2 (JSNumber.mul (JSNumber.div finalPrice (.fin price)) (.fin 100))

/-! ## A sample host -/

/-- The `Date` of a day of October 2023 on a host whose time zone is UTC. -/
def october2023 (day weekday : Nat) (weekdayLong : String)
    (h : 1 ≤ day ∧ day ≤ 31) : JSDate :=
  { utcYear := 2023
    utcMonth := 10
    utcDay := day
    getDate := day
    getMonth := 9
    getFullYear := 2023
    getDay := weekday
    weekdayLong := weekdayLong
    monthLong := "October"
    utcYear_range := by decide
    utcMonth_range := by decide
    utcDay_range := h }

/-- The constructor `new Date` of a host in UTC on the timestamps of the sample
transactions and on their ISO dates; any other text is read as one fixed day. -/
def utcNewDate (s : String) : JSDate :=
  if s = "2023-10-01 10:00:00" ∨ s = "2023-10-01 12:30:00" ∨ s = "2023-10-01" then
    october2023 1 0 "Sunday" (by decide)
  else if s = "2023-10-02 15:00:00" ∨ s = "2023-10-02" then
    october2023 2 1 "Monday" (by decide)
  else
    october2023 3 2 "Tuesday" (by decide)

/-! ## Double-precision arithmetic -/

namespace JSNumber

theorem roundHalfEven_eq_of_near {y : ℚ} {n : ℤ} (h₁ : (n : ℚ) - 1 / 2 < y)
    (h₂ : y < n + 1 / 2) : roundHalfEven y = n := by
  unfold roundHalfEven
  rcases le_or_lt (n : ℚ) y with hge | hlt
  · have hfl : ⌊y⌋ = n := by
      rw [Int.floor_eq_iff]
      constructor
      · exact hge
      · linarith
    rw [hfl, if_pos (by linarith)]
  · have hfl : ⌊y⌋ = n - 1 := by
      rw [Int.floor_eq_iff]
      push_cast
      constructor <;> linarith
    rw [hfl]
    push_cast
    rw [if_neg (by linarith), if_pos (by linarith)]
    ring

theorem roundHalfEven_intCast (n : ℤ) : roundHalfEven (n : ℚ) = n :=
  roundHalfEven_eq_of_near (by linarith) (by linarith)

theorem abs_sub_roundHalfEven_le (y : ℚ) : |y - roundHalfEven y| ≤ 1 / 2 := by
  have h₁ := Int.floor_le y
  have h₂ := Int.lt_floor_add_one y
  unfold roundHalfEven
  split_ifs <;> push_cast <;> rw [abs_le] <;> constructor <;> linarith

theorem roundHalfEven_nonneg {y : ℚ} (h : 0 ≤ y) : 0 ≤ roundHalfEven y := by
  have hf : 0 ≤ ⌊y⌋ := Int.floor_nonneg.2 h
  unfold roundHalfEven
  split_ifs <;> omega

theorem ulpExponent_eq {x : ℚ} {E : ℤ} (hlo : (2 : ℚ) ^ E ≤ |x|) (hhi : |x| < (2 : ℚ) ^ (E + 1)) :
    ulpExponent x = max E (-1022) - 52 := by
  have hpos : 0 < |x| := lt_of_lt_of_le (zpow_pos (by norm_num) E) hlo
  have h₁ : E ≤ Int.log 2 |x| := (Int.zpow_le_iff_le_log (by norm_num) hpos).1 (by exact_mod_cast hlo)
  have h₂ : Int.log 2 |x| < E + 1 := (Int.lt_zpow_iff_log_lt (by norm_num) hpos).1 (by exact_mod_cast hhi)
  have : Int.log 2 |x| = E := by omega
  unfold ulpExponent
  rw [this]

theorem toDouble_eq_of_near {x : ℚ} {E n : ℤ} (hlo : (2 : ℚ) ^ E ≤ |x|)
    (hhi : |x| < (2 : ℚ) ^ (E + 1)) (hE : -1022 ≤ E)
    (h₁ : (n : ℚ) - 1 / 2 < x / 2 ^ (E - 52)) (h₂ : x / 2 ^ (E - 52) < n + 1 / 2)
    (hfin : |(n : ℚ) * 2 ^ (E - 52)| < 2 ^ 1024) :
    toDouble x = fin (n * 2 ^ (E - 52)) := by
  have hk : ulpExponent x = E - 52 := by
    rw [ulpExponent_eq hlo hhi, max_eq_left hE]
  unfold toDouble
  rw [hk, roundHalfEven_eq_of_near h₁ h₂, if_neg (not_le.2 hfin)]

theorem toDouble_eq_of_near_pos {x : ℚ} (E n : ℤ) (hlo : (2 : ℚ) ^ E ≤ x)
    (hhi : x < (2 : ℚ) ^ (E + 1)) (hE : -1022 ≤ E)
    (h₁ : (n : ℚ) - 1 / 2 < x / 2 ^ (E - 52)) (h₂ : x / 2 ^ (E - 52) < n + 1 / 2)
    (hn : 0 ≤ n) (hfin : (n : ℚ) * 2 ^ (E - 52) < 2 ^ 1024) :
    toDouble x = fin (n * 2 ^ (E - 52)) := by
  have hx : 0 < x := lt_of_lt_of_le (zpow_pos (by norm_num) E) hlo
  have hy : (0 : ℚ) ≤ n * 2 ^ (E - 52) :=
    mul_nonneg (by exact_mod_cast hn) (le_of_lt (zpow_pos (by norm_num) _))
  exact toDouble_eq_of_near (by rw [abs_of_pos hx]; exact hlo)
    (by rw [abs_of_pos hx]; exact hhi) hE h₁ h₂ (by rw [abs_of_nonneg hy]; exact hfin)

theorem isDouble_neg {x : ℚ} (h : IsDouble x) : IsDouble (-x) := by
  obtain ⟨m, e, hm, he₁, he₂, rfl⟩ := h
  exact ⟨-m, e, by rwa [Int.natAbs_neg], he₁, he₂, by push_cast; ring⟩

theorem toDouble_zero : toDouble 0 = fin 0 := by
  have h : roundHalfEven ((0 : ℚ) / 2 ^ ulpExponent 0) = 0 := by
    rw [zero_div]
    exact_mod_cast roundHalfEven_intCast 0
  unfold toDouble
  rw [h, Int.cast_zero, zero_mul, abs_zero, if_neg (not_le.2 (by positivity))]

theorem toDouble_of_isDouble {x : ℚ} (h : IsDouble x) : toDouble x = fin x := by
  obtain ⟨m, e, hm, he₁, he₂, rfl⟩ := h
  by_cases hm0 : m = 0
  · subst hm0
    simpa using toDouble_zero
  have h2 : (0 : ℚ) < 2 := by norm_num
  have hmq : (0 : ℚ) < |(m : ℚ)| := abs_pos.2 (by exact_mod_cast hm0)
  have hxabs : |(m : ℚ) * 2 ^ e| = |(m : ℚ)| * 2 ^ e := by
    rw [abs_mul, abs_of_pos (zpow_pos h2 e)]
  have hxpos : 0 < |(m : ℚ) * 2 ^ e| := by
    rw [hxabs]; exact mul_pos hmq (zpow_pos h2 e)
  have hmlt : |(m : ℚ)| < 2 ^ (53 : ℤ) := by
    have h₁ : ((m.natAbs : ℕ) : ℚ) < ((2 ^ 53 : ℕ) : ℚ) := Nat.cast_lt.2 hm
    rw [Nat.cast_natAbs, Int.cast_abs] at h₁
    have h₂ : (2 : ℚ) ^ (53 : ℤ) = ((2 ^ 53 : ℕ) : ℚ) := by norm_num
    rw [h₂]
    exact h₁
  have hlt : |(m : ℚ) * 2 ^ e| < (2 : ℚ) ^ (53 + e) := by
    rw [hxabs, zpow_add₀ (by norm_num)]
    exact mul_lt_mul_of_pos_right hmlt (zpow_pos h2 e)
  have hlog : Int.log 2 |(m : ℚ) * 2 ^ e| < 53 + e :=
    (Int.lt_zpow_iff_log_lt (by norm_num) hxpos).1 (by exact_mod_cast hlt)
  have hk : ulpExponent ((m : ℚ) * 2 ^ e) ≤ e := by
    unfold ulpExponent
    rcases max_cases (Int.log 2 |(m : ℚ) * 2 ^ e|) (-1022) with ⟨h, -⟩ | ⟨h, -⟩ <;>
      rw [h] <;> omega
  obtain ⟨j, hj⟩ : ∃ j : ℕ, e = ulpExponent ((m : ℚ) * 2 ^ e) + j :=
    ⟨(e - ulpExponent ((m : ℚ) * 2 ^ e)).toNat, by omega⟩
  have hdiv : (m : ℚ) * 2 ^ e / 2 ^ ulpExponent ((m : ℚ) * 2 ^ e) = ((m * 2 ^ j : ℤ) : ℚ) := by
    have hne : (2 : ℚ) ^ ulpExponent ((m : ℚ) * 2 ^ e) ≠ 0 := (zpow_pos h2 _).ne'
    rw [div_eq_iff hne]
    nth_rewrite 1 [hj]
    rw [zpow_add₀ (by norm_num), zpow_natCast]
    push_cast
    ring
  have hback : ((m * 2 ^ j : ℤ) : ℚ) * 2 ^ ulpExponent ((m : ℚ) * 2 ^ e) = (m : ℚ) * 2 ^ e := by
    have hne : (2 : ℚ) ^ ulpExponent ((m : ℚ) * 2 ^ e) ≠ 0 := (zpow_pos h2 _).ne'
    rw [← hdiv, div_mul_cancel₀ _ hne]
  have hfin : |(m : ℚ) * 2 ^ e| < 2 ^ 1024 := by
    have h₁ : (2 : ℚ) ^ (53 + e) ≤ 2 ^ (1024 : ℤ) :=
      zpow_le_zpow_right₀ (by norm_num) (by omega)
    have h₂ : (2 : ℚ) ^ (1024 : ℤ) = 2 ^ 1024 := by norm_num
    linarith
  unfold toDouble
  rw [hdiv, roundHalfEven_intCast, hback, if_neg (not_le.2 hfin)]

theorem toFixed2_fin {q : ℚ} (h₀ : 0 ≤ q) (h₁ : q < 10 ^ 21) :
    toFixed2 (fin q) = toDouble ((⌊100 * q + 1 / 2⌋ : ℤ) / 100) := by
  simp only [toFixed2, roundCents]
  rw [if_neg (not_lt.2 h₀), if_neg (not_le.2 h₁), mul_comm]

theorem toDouble_error {x : ℚ} (hx : |x| ≤ 2 ^ (1023 : ℤ)) :
    ∃ y, toDouble x = fin y ∧ |y - x| ≤ |x| * 2 ^ (-53 : ℤ) + 2 ^ (-1075 : ℤ) ∧
      (0 ≤ x → 0 ≤ y) := by
  have h2 : (0 : ℚ) < 2 := by norm_num
  by_cases hx0 : x = 0
  · subst hx0
    refine ⟨0, toDouble_zero, ?_, fun _ => le_refl _⟩
    rw [sub_zero, abs_zero, zero_mul, zero_add]
    exact le_of_lt (zpow_pos h2 _)
  have hpos : 0 < |x| := abs_pos.2 hx0
  have hkpos : (0 : ℚ) < 2 ^ ulpExponent x := zpow_pos h2 _
  have hnear := abs_sub_roundHalfEven_le (x / 2 ^ ulpExponent x)
  have hdist : |(roundHalfEven (x / 2 ^ ulpExponent x) : ℚ) * 2 ^ ulpExponent x - x|
      ≤ 2 ^ (ulpExponent x - 1) := by
    have e₁ : (roundHalfEven (x / 2 ^ ulpExponent x) : ℚ) * 2 ^ ulpExponent x - x
        = -((x / 2 ^ ulpExponent x - roundHalfEven (x / 2 ^ ulpExponent x))
            * 2 ^ ulpExponent x) := by
      field_simp
      ring
    rw [e₁, abs_neg, abs_mul, abs_of_pos hkpos, zpow_sub_one₀ (by norm_num)]
    calc |x / 2 ^ ulpExponent x - ↑(roundHalfEven (x / 2 ^ ulpExponent x))| * 2 ^ ulpExponent x
        ≤ 1 / 2 * 2 ^ ulpExponent x := mul_le_mul_of_nonneg_right hnear (le_of_lt hkpos)
      _ = 2 ^ ulpExponent x * 2⁻¹ := by ring
  have hlogle : (2 : ℚ) ^ Int.log 2 |x| ≤ |x| := by
    exact_mod_cast Int.zpow_log_le_self (b := 2) (by norm_num) hpos
  have hloglt : Int.log 2 |x| < 1024 := by
    apply (Int.lt_zpow_iff_log_lt (by norm_num) hpos).1
    have : (2 : ℚ) ^ (1023 : ℤ) < 2 ^ (1024 : ℤ) := zpow_lt_zpow_right₀ (by norm_num) (by norm_num)
    exact_mod_cast lt_of_le_of_lt hx this
  have hquant : (2 : ℚ) ^ (ulpExponent x - 1) ≤ |x| * 2 ^ (-53 : ℤ) + 2 ^ (-1075 : ℤ) := by
    unfold ulpExponent
    rcases max_cases (Int.log 2 |x|) (-1022) with ⟨h, -⟩ | ⟨h, -⟩
    · rw [h]
      have e : Int.log 2 |x| - 52 - 1 = Int.log 2 |x| + (-53) := by ring
      rw [e, zpow_add₀ (by norm_num)]
      have := mul_le_mul_of_nonneg_right hlogle (le_of_lt (zpow_pos h2 (-53)))
      have := zpow_pos h2 (-1075)
      linarith
    · rw [h]
      have e : (-1022 : ℤ) - 52 - 1 = -1075 := by norm_num
      rw [e]
      have := mul_nonneg (le_of_lt hpos) (le_of_lt (zpow_pos h2 (-53)))
      linarith
  have hsmall : (2 : ℚ) ^ (ulpExponent x - 1) ≤ 2 ^ (970 : ℤ) := by
    apply zpow_le_zpow_right₀ (by norm_num)
    unfold ulpExponent
    rcases max_cases (Int.log 2 |x|) (-1022) with ⟨h, -⟩ | ⟨h, -⟩ <;> rw [h] <;> omega
  have hfin : |(roundHalfEven (x / 2 ^ ulpExponent x) : ℚ) * 2 ^ ulpExponent x| < 2 ^ 1024 := by
    have h₁ := abs_sub_abs_le_abs_sub
      ((roundHalfEven (x / 2 ^ ulpExponent x) : ℚ) * 2 ^ ulpExponent x) x
    have h₂ : (2 : ℚ) ^ (1023 : ℤ) + 2 ^ (970 : ℤ) < 2 ^ 1024 := by norm_num
    linarith
  refine ⟨_, ?_, le_trans hdist hquant, ?_⟩
  · unfold toDouble
    rw [if_neg (not_le.2 hfin)]
  · intro hx'
    exact mul_nonneg (by exact_mod_cast roundHalfEven_nonneg (div_nonneg hx' (le_of_lt hkpos)))
      (le_of_lt hkpos)

theorem margin_error {p d : ℚ} (hp₁ : (2 : ℚ) ^ (-1000 : ℤ) ≤ p) (hp₂ : p ≤ 2 ^ (1000 : ℤ))
    (hd₀ : 0 ≤ d) (hd₁ : d ≤ p) :
    ∃ y z q : ℚ, toDouble (p - d) = fin y ∧ toDouble (y / p) = fin z ∧
      toDouble (z * 100) = fin q ∧ 0 ≤ q ∧ q ≤ 301 ∧
      |q - (p - d) / p * 100| ≤ 2 ^ (-43 : ℤ) := by
  have h2 : (0 : ℚ) < 2 := by norm_num
  have hppos : 0 < p := lt_of_lt_of_le (zpow_pos h2 _) hp₁
  have hu : (2 : ℚ) ^ (-53 : ℤ) = 1 / 9007199254740992 := by norm_num
  have hδ : (2 : ℚ) ^ (-75 : ℤ) = 1 / 37778931862957161709568 := by norm_num
  have hε : (2 : ℚ) ^ (-1075 : ℤ) ≤ 2 ^ (-75 : ℤ) * p := by
    have e : (2 : ℚ) ^ (-1075 : ℤ) = 2 ^ (-75 : ℤ) * 2 ^ (-1000 : ℤ) := by
      rw [← zpow_add₀ (by norm_num)]; norm_num
    rw [e]
    exact mul_le_mul_of_nonneg_left hp₁ (le_of_lt (zpow_pos h2 _))
  have hε' : (2 : ℚ) ^ (-1075 : ℤ) ≤ 2 ^ (-75 : ℤ) := by
    apply zpow_le_zpow_right₀ (by norm_num) (by norm_num)
  have hεpos : (0 : ℚ) < 2 ^ (-1075 : ℤ) := zpow_pos h2 _
  have hbig : (2 : ℚ) ^ (1000 : ℤ) ≤ 2 ^ (1023 : ℤ) :=
    zpow_le_zpow_right₀ (by norm_num) (by norm_num)
  have hone : (3 : ℚ) ≤ 2 ^ (1023 : ℤ) := by
    have : (2 : ℚ) ^ (2 : ℤ) ≤ 2 ^ (1023 : ℤ) := zpow_le_zpow_right₀ (by norm_num) (by norm_num)
    exact le_trans (by norm_num) this
  have hthree : (300 : ℚ) ≤ 2 ^ (1023 : ℤ) := by
    have : (2 : ℚ) ^ (9 : ℤ) ≤ 2 ^ (1023 : ℤ) := zpow_le_zpow_right₀ (by norm_num) (by norm_num)
    exact le_trans (by norm_num) this
  -- the difference
  have hx₀ : 0 ≤ p - d := by linarith
  obtain ⟨y₀, hy₀, he₀, hn₀⟩ := toDouble_error (x := p - d)
    (by rw [abs_of_nonneg hx₀]; linarith)
  have hy₀pos := hn₀ hx₀
  rw [abs_of_nonneg hx₀, abs_le] at he₀
  -- the quotient
  have hx₁ : 0 ≤ y₀ / p := div_nonneg hy₀pos (le_of_lt hppos)
  have hx₁le : y₀ / p ≤ 1 + 2 ^ (-53 : ℤ) + 2 ^ (-75 : ℤ) := by
    rw [div_le_iff₀ hppos]
    nlinarith [mul_nonneg hx₀ (le_of_lt (zpow_pos h2 (-53))),
      mul_le_mul_of_nonneg_right (show p - d ≤ p by linarith) (le_of_lt (zpow_pos h2 (-53)))]
  have hquot : |y₀ / p - (p - d) / p| ≤ 2 ^ (-53 : ℤ) + 2 ^ (-75 : ℤ) := by
    rw [← sub_div, abs_div, abs_of_pos hppos, div_le_iff₀ hppos, abs_le]
    have := mul_le_mul_of_nonneg_right (show p - d ≤ p by linarith)
      (le_of_lt (zpow_pos h2 (-53)))
    constructor <;> nlinarith
  obtain ⟨y₁, hy₁, he₁, hn₁⟩ := toDouble_error (x := y₀ / p)
    (by rw [abs_of_nonneg hx₁]; rw [hu, hδ] at hx₁le; linarith)
  have hy₁pos := hn₁ hx₁
  rw [abs_of_nonneg hx₁, abs_le] at he₁
  have hmul₁ : y₀ / p * 2 ^ (-53 : ℤ) ≤ 2 * 2 ^ (-53 : ℤ) := by
    apply mul_le_mul_of_nonneg_right _ (le_of_lt (zpow_pos h2 _))
    rw [hu, hδ] at hx₁le; linarith
  have hy₁le : y₁ ≤ 3 := by
    rw [hu, hδ] at hx₁le; rw [hu] at hmul₁ he₁; rw [hδ] at hε'
    linarith [he₁.2]
  -- the product
  have hx₂ : 0 ≤ y₁ * 100 := by linarith
  obtain ⟨q, hq, he₂, hn₂⟩ := toDouble_error (x := y₁ * 100)
    (by rw [abs_of_nonneg hx₂]; linarith)
  have hqpos := hn₂ hx₂
  rw [abs_of_nonneg hx₂, abs_le] at he₂
  have hmul₂ : y₁ * 100 * 2 ^ (-53 : ℤ) ≤ 300 * 2 ^ (-53 : ℤ) := by
    apply mul_le_mul_of_nonneg_right _ (le_of_lt (zpow_pos h2 _))
    linarith
  rw [abs_le] at hquot
  have h43 : (2 : ℚ) ^ (-43 : ℤ) = 1 / 8796093022208 := by norm_num
  refine ⟨y₀, y₁, q, hy₀, hy₁, hq, hqpos, ?_, ?_⟩
  · rw [hu] at hmul₂ he₂; rw [hδ] at hε'
    linarith [he₂.2]
  · rw [abs_le, h43]
    rw [hu] at hmul₁ hmul₂ he₁ he₂ hquot hx₁le
    rw [hδ] at hε' hquot hx₁le
    constructor <;> linarith [he₁.1, he₁.2, he₂.1, he₂.2, hquot.1, hquot.2]

theorem toDouble_eval_pos {x : ℚ} (E n : ℤ) (y : ℚ) (hlo : (2 : ℚ) ^ E ≤ x)
    (hhi : x < (2 : ℚ) ^ (E + 1)) (hE : -1022 ≤ E)
    (h₁ : (n : ℚ) - 1 / 2 < x / 2 ^ (E - 52)) (h₂ : x / 2 ^ (E - 52) < n + 1 / 2)
    (hn : 0 ≤ n) (hfin : (n : ℚ) * 2 ^ (E - 52) < 2 ^ 1024)
    (hy : (n : ℚ) * 2 ^ (E - 52) = y) : toDouble x = fin y := by
  rw [← hy]
  exact toDouble_eq_of_near_pos E n hlo hhi hE h₁ h₂ hn hfin

theorem toFixed2_eval {q : ℚ} (n : ℤ) (h₀ : 0 ≤ q) (h₁ : q < 10 ^ 21)
    (hn₁ : (n : ℚ) ≤ 100 * q + 1 / 2) (hn₂ : 100 * q + 1 / 2 < n + 1) :
    toFixed2 (fin q) = toDouble (n / 100) := by
  rw [toFixed2_fin h₀ h₁, Int.floor_eq_iff.2 ⟨hn₁, hn₂⟩]

theorem toFixed2_error {q : ℚ} (h₀ : 0 ≤ q) (h₁ : q ≤ 301) :
    ∃ r, toFixed2 (fin q) = fin r ∧ |r - q| ≤ 1 / 200 + 2 ^ (-44 : ℤ) := by
  have h2 : (0 : ℚ) < 2 := by norm_num
  have hfl₁ := Int.floor_le (100 * q + 1 / 2)
  have hfl₂ := Int.lt_floor_add_one (100 * q + 1 / 2)
  have hfl₀ : (0 : ℚ) ≤ (⌊100 * q + 1 / 2⌋ : ℤ) := by
    exact_mod_cast Int.floor_nonneg.2 (by linarith : (0 : ℚ) ≤ 100 * q + 1 / 2)
  have hc₀ : (0 : ℚ) ≤ (⌊100 * q + 1 / 2⌋ : ℤ) / 100 := by positivity
  have hbig : (302 : ℚ) ≤ 2 ^ (1023 : ℤ) := by
    have : (2 : ℚ) ^ (9 : ℤ) ≤ 2 ^ (1023 : ℤ) := zpow_le_zpow_right₀ (by norm_num) (by norm_num)
    exact le_trans (by norm_num) this
  obtain ⟨r, hr, he, -⟩ := toDouble_error (x := (⌊100 * q + 1 / 2⌋ : ℤ) / 100)
    (by rw [abs_of_nonneg hc₀]; linarith)
  rw [abs_of_nonneg hc₀, abs_le] at he
  have hmul : ((⌊100 * q + 1 / 2⌋ : ℤ) : ℚ) / 100 * 2 ^ (-53 : ℤ) ≤ 302 * 2 ^ (-53 : ℤ) := by
    apply mul_le_mul_of_nonneg_right _ (le_of_lt (zpow_pos h2 _))
    linarith
  have hε : (2 : ℚ) ^ (-1075 : ℤ) ≤ 2 ^ (-53 : ℤ) :=
    zpow_le_zpow_right₀ (by norm_num) (by norm_num)
  have hu : (2 : ℚ) ^ (-53 : ℤ) = 1 / 9007199254740992 := by norm_num
  have h44 : (2 : ℚ) ^ (-44 : ℤ) = 1 / 17592186044416 := by norm_num
  refine ⟨r, ?_, ?_⟩
  · rw [toFixed2_fin h₀ (lt_of_le_of_lt h₁ (by norm_num)), hr]
  · rw [abs_le, h44]
    rw [hu] at hmul hε he
    constructor <;> linarith [he.1, he.2]

theorem toDouble_tenth : toDouble (1 / 10) = fin (3602879701896397 / 36028797018963968) :=
  toDouble_eval_pos (-4) 7205759403792794 _ (by norm_num) (by norm_num) (by norm_num)
    (by norm_num) (by norm_num) (by norm_num) (by norm_num) (by norm_num)

theorem toDouble_tenth_hundred :
    toDouble (3602879701896397 / 36028797018963968 * 100) = fin 10 :=
  toDouble_eval_pos 3 5629499534213120 _ (by norm_num) (by norm_num) (by norm_num)
    (by norm_num) (by norm_num) (by norm_num) (by norm_num) (by norm_num)

theorem toDouble_nine_tenths :
    toDouble (9 / 10) = fin (8106479329266893 / 9007199254740992) :=
  toDouble_eval_pos (-1) 8106479329266893 _ (by norm_num) (by norm_num) (by norm_num)
    (by norm_num) (by norm_num) (by norm_num) (by norm_num) (by norm_num)

theorem toDouble_nine_tenths_hundred :
    toDouble (8106479329266893 / 9007199254740992 * 100) = fin 90 :=
  toDouble_eval_pos 6 6333186975989760 _ (by norm_num) (by norm_num) (by norm_num)
    (by norm_num) (by norm_num) (by norm_num) (by norm_num) (by norm_num)

/-- The values `toFixed2` computes on the first item of the sample data. -/
theorem sample_measures :
    toFixed2 (sub (fin 5) (fin (1 / 2))) = fin (9 / 2) ∧
    toFixed2 (mul (div (fin (1 / 2)) (fin 5)) (fin 100)) = fin 10 ∧
    toFixed2 (mul (div (sub (fin 5) (fin (1 / 2))) (fin 5)) (fin 100)) = fin 90 := by
  have e92 : toDouble (9 / 2) = fin (9 / 2) :=
    toDouble_of_isDouble ⟨9, -1, by decide, by decide, by decide, by norm_num⟩
  have e10 : toDouble 10 = fin 10 :=
    toDouble_of_isDouble ⟨10, 0, by decide, by decide, by decide, by norm_num⟩
  have e90 : toDouble 90 = fin 90 :=
    toDouble_of_isDouble ⟨90, 0, by decide, by decide, by decide, by norm_num⟩
  have hsub : sub (fin 5) (fin (1 / 2)) = fin (9 / 2) := by
    simp only [sub]
    rw [show (5 : ℚ) - 1 / 2 = 9 / 2 by norm_num, e92]
  refine ⟨?_, ?_, ?_⟩
  · rw [hsub, toFixed2_eval 450 (by norm_num) (by norm_num) (by norm_num) (by norm_num)]
    rw [show ((450 : ℤ) : ℚ) / 100 = 9 / 2 by norm_num, e92]
  · simp only [div]
    rw [if_neg (by norm_num), show (1 / 2 : ℚ) / 5 = 1 / 10 by norm_num, toDouble_tenth]
    simp only [mul]
    rw [toDouble_tenth_hundred,
      toFixed2_eval 1000 (by norm_num) (by norm_num) (by norm_num) (by norm_num)]
    rw [show ((1000 : ℤ) : ℚ) / 100 = 10 by norm_num, e10]
  · rw [hsub]
    simp only [div]
    rw [if_neg (by norm_num), show (9 / 2 : ℚ) / 5 = 9 / 10 by norm_num, toDouble_nine_tenths]
    simp only [mul]
    rw [toDouble_nine_tenths_hundred,
      toFixed2_eval 9000 (by norm_num) (by norm_num) (by norm_num) (by norm_num)]
    rw [show ((9000 : ℤ) : ℚ) / 100 = 90 by norm_num, e90]

/-- The values computed for an item of price 2 and discount 0.125: the rounded
`final_price` is the double nearest to 1.88, the margin of the code is 93.75
and the margin computed from the rounded `final_price` is 94. -/
theorem eighth_measures :
    toFixed2 (sub (fin 2) (fin (1 / 8))) = fin (2116691824864133 / 1125899906842624) ∧
    toFixed2 (mul (div (sub (fin 2) (fin (1 / 8))) (fin 2)) (fin 100)) = fin (375 / 4) ∧
    toFixed2 (mul (div (fin (2116691824864133 / 1125899906842624)) (fin 2)) (fin 100))
      = fin 94 := by
  have hsub : sub (fin 2) (fin (1 / 8)) = fin (15 / 8) := by
    simp only [sub]
    rw [show (2 : ℚ) - 1 / 8 = 15 / 8 by norm_num]
    exact toDouble_of_isDouble ⟨15, -3, by decide, by decide, by decide, by norm_num⟩
  refine ⟨?_, ?_, ?_⟩
  · rw [hsub, toFixed2_eval 188 (by norm_num) (by norm_num) (by norm_num) (by norm_num)]
    exact toDouble_eval_pos 0 8466767299456532 _ (by norm_num) (by norm_num) (by norm_num)
      (by norm_num) (by norm_num) (by norm_num) (by norm_num) (by norm_num)
  · rw [hsub]
    simp only [div]
    rw [if_neg (by norm_num), show (15 / 8 : ℚ) / 2 = 15 / 16 by norm_num,
      toDouble_of_isDouble ⟨15, -4, by decide, by decide, by decide, by norm_num⟩]
    simp only [mul]
    rw [show (15 / 16 : ℚ) * 100 = 375 / 4 by norm_num,
      toDouble_of_isDouble ⟨375, -2, by decide, by decide, by decide, by norm_num⟩,
      toFixed2_eval 9375 (by norm_num) (by norm_num) (by norm_num) (by norm_num),
      show ((9375 : ℤ) : ℚ) / 100 = 375 / 4 by norm_num,
      toDouble_of_isDouble ⟨375, -2, by decide, by decide, by decide, by norm_num⟩]
  · simp only [div]
    rw [if_neg (by norm_num),
      show (2116691824864133 / 1125899906842624 : ℚ) / 2
        = 2116691824864133 / 2251799813685248 by norm_num,
      toDouble_of_isDouble
        ⟨2116691824864133, -51, by decide, by decide, by decide, by norm_num⟩]
    simp only [mul]
    rw [toDouble_eval_pos (x := 2116691824864133 / 2251799813685248 * 100) 6
        6614661952700416 94 (by norm_num) (by norm_num) (by norm_num)
        (by norm_num) (by norm_num) (by norm_num) (by norm_num) (by norm_num),
      toFixed2_eval 9400 (by norm_num) (by norm_num) (by norm_num) (by norm_num),
      show ((9400 : ℤ) : ℚ) / 100 = 94 by norm_num,
      toDouble_of_isDouble ⟨94, 0, by decide, by decide, by decide, by norm_num⟩]

/-- The margin computed for an item of price 5 and discount 1.96875: the
difference 3.03125 is exact, the quotient and the product are rounded, the
product is the double just below 60.625, and `toFixed` prints it as 60.62. -/
theorem rounded_margin :
    toDouble (5 - 63 / 32) = fin (97 / 32) ∧
    toDouble (97 / 32 / 5) = fin (2730307274093363 / 4503599627370496) ∧
    toDouble (2730307274093363 / 4503599627370496 * 100)
      = fin (8532210231541759 / 140737488355328) ∧
    ⌊(100 : ℚ) * (8532210231541759 / 140737488355328) + 1 / 2⌋ = 6062 ∧
    toDouble (((6062 : ℤ) : ℚ) / 100) = fin (8531506544099983 / 140737488355328) := by
  refine ⟨?_, ?_, ?_, ?_, ?_⟩
  · rw [show (5 : ℚ) - 63 / 32 = 97 / 32 by norm_num]
    exact toDouble_of_isDouble ⟨97, -5, by decide, by decide, by decide, by norm_num⟩
  · rw [show (97 / 32 : ℚ) / 5 = 97 / 160 by norm_num]
    exact toDouble_eval_pos (-1) 5460614548186726 _ (by norm_num) (by norm_num)
      (by norm_num) (by norm_num) (by norm_num) (by norm_num) (by norm_num) (by norm_num)
  · exact toDouble_eval_pos 5 8532210231541759 _ (by norm_num) (by norm_num) (by norm_num)
      (by norm_num) (by norm_num) (by norm_num) (by norm_num) (by norm_num)
  · rw [Int.floor_eq_iff]
    norm_num
  · exact toDouble_eval_pos 5 8531506544099983 _ (by norm_num) (by norm_num) (by norm_num)
      (by norm_num) (by norm_num) (by norm_num) (by norm_num) (by norm_num)

/-- The measures computed for the prices written `1.60` and `0.11`, which are
read as the doubles nearest to them: the percentage is printed as 6.87 and the
margin as 93.12, one cent below the roundings 6.88 and 93.13 of the exact
quotients 6.875 and 93.125. -/
theorem literal_measures :
    toDouble (8 / 5) = fin (3602879701896397 / 2251799813685248) ∧
    toDouble (11 / 100) = fin (7926335344172073 / 72057594037927936) ∧
    toFixed2 (mul (div (fin (7926335344172073 / 72057594037927936)) (fin (3602879701896397 / 2251799813685248))) (fin 100))
      = toDouble (687 / 100) ∧
    toFixed2 (mul (div (sub (fin (3602879701896397 / 2251799813685248)) (fin (7926335344172073 / 72057594037927936)))
        (fin (3602879701896397 / 2251799813685248))) (fin 100))
      = toDouble (9312 / 100) := by
  refine ⟨?_, ?_, ?_, ?_⟩
  · exact toDouble_eval_pos 0 7205759403792794 _ (by norm_num) (by norm_num) (by norm_num)
      (by norm_num) (by norm_num) (by norm_num) (by norm_num) (by norm_num)
  · exact toDouble_eval_pos (-4) 7926335344172073 _ (by norm_num) (by norm_num) (by norm_num)
      (by norm_num) (by norm_num) (by norm_num) (by norm_num) (by norm_num)
  · simp only [div]
    rw [if_neg (by norm_num),
      toDouble_eval_pos (x := 7926335344172073 / 72057594037927936 / (3602879701896397 / 2251799813685248)) (-4) 4953959590107545
        (4953959590107545 / 72057594037927936) (by norm_num) (by norm_num) (by norm_num)
      (by norm_num) (by norm_num) (by norm_num) (by norm_num) (by norm_num)]
    simp only [mul]
    rw [toDouble_eval_pos (x := 4953959590107545 / 72057594037927936 * 100) 2 7740561859543039
        (7740561859543039 / 1125899906842624) (by norm_num) (by norm_num) (by norm_num)
      (by norm_num) (by norm_num) (by norm_num) (by norm_num) (by norm_num),
      toFixed2_eval 687 (by norm_num) (by norm_num) (by norm_num) (by norm_num)]
    norm_num
  · simp only [sub]
    rw [toDouble_eval_pos (x := 3602879701896397 / 2251799813685248 - 7926335344172073 / 72057594037927936) 0 6710363444782039
        (6710363444782039 / 4503599627370496) (by norm_num) (by norm_num) (by norm_num)
      (by norm_num) (by norm_num) (by norm_num) (by norm_num) (by norm_num)]
    simp only [div]
    rw [if_neg (by norm_num),
      toDouble_eval_pos (x := 6710363444782039 / 4503599627370496 / (3602879701896397 / 2251799813685248)) (-1) 8387954305977548
        (2096988576494387 / 2251799813685248) (by norm_num) (by norm_num) (by norm_num)
      (by norm_num) (by norm_num) (by norm_num) (by norm_num) (by norm_num)]
    simp only [mul]
    rw [toDouble_eval_pos (x := 2096988576494387 / 2251799813685248 * 100) 6 6553089301544959
        (6553089301544959 / 70368744177664) (by norm_num) (by norm_num) (by norm_num)
      (by norm_num) (by norm_num) (by norm_num) (by norm_num) (by norm_num),
      toFixed2_eval 9312 (by norm_num) (by norm_num) (by norm_num) (by norm_num)]
    norm_num

end JSNumber

/-! ## Insertion-ordered sets -/

theorem mem_setAdd {α : Type} [DecidableEq α] (s : List α) (x a : α) :
    a ∈ setAdd s x ↔ a ∈ s ∨ a = x := by
  unfold setAdd
  split
  · constructor
    · intro h; exact Or.inl h
    · rintro (h | h)
      · exact h
      · subst h; assumption
  · simp

theorem nodup_setAdd {α : Type} [DecidableEq α] (s : List α) (x : α) (h : s.Nodup) :
    (setAdd s x).Nodup := by
  unfold setAdd
  split
  · exact h
  · rename_i hx
    refine List.Nodup.append h (List.nodup_singleton x) ?_
    intro a ha hax
    have : a = x := by simpa using hax
    exact hx (this ▸ ha)

theorem mem_foldl_setAdd {α : Type} [DecidableEq α] (xs : List α) :
    ∀ (acc : List α) (a : α), a ∈ xs.foldl setAdd acc ↔ a ∈ acc ∨ a ∈ xs := by
  induction xs with
  | nil => intro acc a; simp
  | cons x xs ih =>
    intro acc a
    rw [List.foldl_cons, ih, mem_setAdd, List.mem_cons]
    tauto

theorem nodup_foldl_setAdd {α : Type} [DecidableEq α] (xs : List α) :
    ∀ acc : List α, acc.Nodup → (xs.foldl setAdd acc).Nodup := by
  induction xs with
  | nil => intro acc h; simpa using h
  | cons x xs ih =>
    intro acc h
    rw [List.foldl_cons]
    exact ih _ (nodup_setAdd acc x h)

theorem mem_setFromList {α : Type} [DecidableEq α] (xs : List α) (a : α) :
    a ∈ setFromList xs ↔ a ∈ xs := by
  simp [setFromList, mem_foldl_setAdd]

theorem nodup_setFromList {α : Type} [DecidableEq α] (xs : List α) :
    (setFromList xs).Nodup :=
  nodup_foldl_setAdd xs [] List.nodup_nil

theorem setFromList_concat {α : Type} [DecidableEq α] (xs : List α) (x : α) :
    setFromList (xs ++ [x]) = setAdd (setFromList xs) x := by
  simp [setFromList, List.foldl_append]

/-- The elements of `setFromList xs` stand in the order of their first
occurrence in `xs`. -/
theorem pairwise_setFromList {α : Type} [DecidableEq α] (xs : List α) :
    (setFromList xs).Pairwise (fun a b => xs.indexOf a < xs.indexOf b) := by
  induction xs using List.reverseRecOn with
  | nil => simp [setFromList]
  | append_singleton xs x ih =>
    have hmono : (setFromList xs).Pairwise
        (fun a b => (xs ++ [x]).indexOf a < (xs ++ [x]).indexOf b) := by
      have hmem : ∀ a ∈ setFromList xs, a ∈ xs := fun a ha => (mem_setFromList xs a).1 ha
      refine (List.Pairwise.and_mem.1 ih).imp ?_
      rintro a b ⟨ha, hb, hab⟩
      rw [List.indexOf_append_of_mem (hmem a ha), List.indexOf_append_of_mem (hmem b hb)]
      exact hab
    rw [setFromList_concat]
    unfold setAdd
    split
    · exact hmono
    · rename_i hx
      have hx' : x ∉ xs := fun h => hx ((mem_setFromList xs x).2 h)
      rw [List.pairwise_append]
      refine ⟨hmono, List.pairwise_singleton _ _, ?_⟩
      intro a ha b hb
      have hb' : b = x := by simpa using hb
      subst hb'
      have ha' : a ∈ xs := (mem_setFromList xs a).1 ha
      rw [List.indexOf_append_of_mem ha', List.indexOf_append_of_not_mem hx']
      have := List.indexOf_lt_length.2 ha'
      omega

theorem foldl_setAdd_map {α β : Type} [DecidableEq α] (g : β → α) (ts : List β) :
    ∀ acc : List α,
      ts.foldl (fun s t => setAdd s (g t)) acc = (ts.map g).foldl setAdd acc := by
  induction ts with
  | nil => intro acc; rfl
  | cons t ts ih => intro acc; simp only [List.foldl_cons, List.map_cons, ih]

/-! ## Location dimension -/

theorem transformLocationDimension_names (ts : List Transaction) :
    (transformLocationDimension ts).map (fun r => r.location_name)
      = setFromList (ts.map fun t => t.location) := by
  simp only [transformLocationDimension, List.map_map]
  exact List.enum_map_snd _

theorem nodup_location_names (ts : List Transaction) :
    ((transformLocationDimension ts).map fun r => r.location_name).Nodup := by
  rw [transformLocationDimension_names]
  exact nodup_setFromList _

theorem transformLocationDimension_length (ts : List Transaction) :
    (transformLocationDimension ts).length = (setFromList (ts.map fun t => t.location)).length := by
  simp [transformLocationDimension]

theorem transformLocationDimension_getElem (ts : List Transaction) (i : Nat)
    (h : i < (transformLocationDimension ts).length)
    (hs : i < (setFromList (ts.map fun t => t.location)).length) :
    (transformLocationDimension ts)[i].location_key = i + 1 ∧
    (transformLocationDimension ts)[i].location_name
      = (setFromList (ts.map fun t => t.location))[i] := by
  simp [transformLocationDimension, List.getElem_enum]

/-- C2. `transformLocationDimension` returns one row per distinct location, in
the order of first appearance in the transaction list, and the row at position
`i` (from 0) has `location_key = i + 1`: the keys are `1, ..., n` with `n` the
number of distinct locations, and a location that first appears earlier has the
smaller key. -/
theorem transformLocationDimension_first_appearance (ts : List Transaction) :
    ((transformLocationDimension ts).map fun r => r.location_name).Nodup ∧
    (∀ s : String, s ∈ ((transformLocationDimension ts).map fun r => r.location_name)
        ↔ s ∈ ts.map fun t => t.location) ∧
    (transformLocationDimension ts).length = (ts.map fun t => t.location).toFinset.card ∧
    ((transformLocationDimension ts).map fun r => r.location_key)
      = List.range' 1 (ts.map fun t => t.location).toFinset.card ∧
    (∀ (i : Nat) (h : i < (transformLocationDimension ts).length),
        (transformLocationDimension ts)[i].location_key = i + 1) ∧
    (∀ (i j : Nat) (hi : i < (transformLocationDimension ts).length)
        (hj : j < (transformLocationDimension ts).length), i < j →
        (ts.map fun t => t.location).indexOf (transformLocationDimension ts)[i].location_name
          < (ts.map fun t => t.location).indexOf
              (transformLocationDimension ts)[j].location_name) ∧
    (∀ r₁ ∈ transformLocationDimension ts, ∀ r₂ ∈ transformLocationDimension ts,
        (ts.map fun t => t.location).indexOf r₁.location_name
          < (ts.map fun t => t.location).indexOf r₂.location_name →
        r₁.location_key < r₂.location_key) := by
  have hset : ∀ i, i < (transformLocationDimension ts).length →
      i < (setFromList (ts.map fun t => t.location)).length := by
    intro i hi
    rw [← transformLocationDimension_length]; exact hi
  have hlen : (transformLocationDimension ts).length
      = (ts.map fun t => t.location).toFinset.card := by
    rw [transformLocationDimension_length,
      ← List.toFinset_card_of_nodup (nodup_setFromList _)]
    congr 1
    ext a
    simp [mem_setFromList]
  have horder : ∀ (i j : Nat) (hi : i < (transformLocationDimension ts).length)
      (hj : j < (transformLocationDimension ts).length), i < j →
      (ts.map fun t => t.location).indexOf (transformLocationDimension ts)[i].location_name
        < (ts.map fun t => t.location).indexOf
            (transformLocationDimension ts)[j].location_name := by
    intro i j hi hj hij
    have hi' : i < (setFromList (ts.map fun t => t.location)).length := by
      rw [← transformLocationDimension_length]; exact hi
    have hj' : j < (setFromList (ts.map fun t => t.location)).length := by
      rw [← transformLocationDimension_length]; exact hj
    rw [(transformLocationDimension_getElem ts i hi hi').2,
      (transformLocationDimension_getElem ts j hj hj').2]
    exact List.pairwise_iff_getElem.1 (pairwise_setFromList _) i j hi' hj' hij
  refine ⟨?_, ?_, hlen, ?_, ?_, horder, ?_⟩
  · rw [transformLocationDimension_names]
    exact nodup_setFromList _
  · intro s
    rw [transformLocationDimension_names]
    exact mem_setFromList _ s
  · rw [← hlen]
    apply List.ext_getElem
    · simp
    · intro i h₁ h₂
      have h : i < (transformLocationDimension ts).length := by simpa using h₁
      simp only [List.getElem_map, List.getElem_range']
      rw [(transformLocationDimension_getElem ts i h (hset i h)).1]
      omega
  · intro i h
    exact (transformLocationDimension_getElem ts i h (hset i h)).1
  · intro r₁ h₁ r₂ h₂ hlt
    obtain ⟨i, hi, rfl⟩ := List.getElem_of_mem h₁
    obtain ⟨j, hj, rfl⟩ := List.getElem_of_mem h₂
    rw [(transformLocationDimension_getElem ts i hi (hset i hi)).1,
      (transformLocationDimension_getElem ts j hj (hset j hj)).1]
    by_contra hge
    have hji : j ≤ i := by omega
    rcases Nat.lt_or_eq_of_le hji with hlt' | heq
    · have := horder j i hj hi hlt'
      omega
    · subst heq
      omega

theorem transformLocationDimension_sample :
    ((transformLocationDimension transactions).map fun r => (r.location_key, r.location_name))
      = [(1, "Cinema A"), (2, "Cinema B"), (3, "Online")] := by
  decide

/-! ## Customer and movie dimensions -/

/-- C4. `transformCustomerDimension` returns one row per input customer, in
input order, with `customer_key` the customer id; the gender of a row is the raw
code when that is "F" or "M", "F" when the raw code is "P" and "M" for every
other raw code, so it is always "F" or "M". -/
theorem transformCustomerDimension_rows (cs : List Customer) :
    (transformCustomerDimension cs).length = cs.length ∧
    ((transformCustomerDimension cs).map fun r => r.customer_key) = cs.map (fun c => c.id) ∧
    (∀ (i : Nat) (h : i < (transformCustomerDimension cs).length) (hc : i < cs.length),
      (transformCustomerDimension cs)[i].customer_key = cs[i].id ∧
      (cs[i].gender = "F" ∨ cs[i].gender = "M" →
        (transformCustomerDimension cs)[i].gender = cs[i].gender) ∧
      (cs[i].gender = "P" → (transformCustomerDimension cs)[i].gender = "F") ∧
      (cs[i].gender ≠ "F" → cs[i].gender ≠ "M" → cs[i].gender ≠ "P" →
        (transformCustomerDimension cs)[i].gender = "M")) ∧
    (∀ r ∈ transformCustomerDimension cs, r.gender = "F" ∨ r.gender = "M") := by
  refine ⟨by simp [transformCustomerDimension], by simp [transformCustomerDimension], ?_, ?_⟩
  · intro i h hc
    simp only [transformCustomerDimension, List.getElem_map]
    refine ⟨trivial, ?_, ?_, ?_⟩
    · intro hg
      rw [if_pos hg]
    · intro hg
      rw [hg]
      decide
    · intro hF hM hP
      rw [if_neg (by tauto), if_neg hP]
  · intro r hr
    simp only [transformCustomerDimension, List.mem_map] at hr
    obtain ⟨c, -, rfl⟩ := hr
    dsimp only
    split_ifs with h₁ h₂
    · exact h₁
    · exact Or.inl rfl
    · exact Or.inr rfl

/-- C5. `getPriceCategory` has the bucket boundaries 4.5 and 5.5: the result is
"Budget" iff `p < 4.5`, "Standard" iff `4.5 ≤ p < 5.5` and "Premium" iff
`5.5 ≤ p`; it maps 4.49 to "Budget", 4.5 to "Standard" and 5.5 to "Premium", and
every row of `transformMovieDimension` carries the category of its own
`base_price`. -/
theorem getPriceCategory_buckets :
    (∀ p : ℚ,
      (getPriceCategory p = "Budget" ↔ p < 9 / 2) ∧
      (getPriceCategory p = "Standard" ↔ 9 / 2 ≤ p ∧ p < 11 / 2) ∧
      (getPriceCategory p = "Premium" ↔ 11 / 2 ≤ p)) ∧
    getPriceCategory (449 / 100) = "Budget" ∧
    getPriceCategory (9 / 2) = "Standard" ∧
    getPriceCategory (11 / 2) = "Premium" ∧
    (∀ ms : List Movie, ∀ r ∈ transformMovieDimension ms,
      r.price_category = getPriceCategory r.base_price) := by
  have hbs : ("Budget" : String) ≠ "Standard" := by decide
  have hbp : ("Budget" : String) ≠ "Premium" := by decide
  have hsp : ("Standard" : String) ≠ "Premium" := by decide
  have key : ∀ p : ℚ,
      (getPriceCategory p = "Budget" ↔ p < 9 / 2) ∧
      (getPriceCategory p = "Standard" ↔ 9 / 2 ≤ p ∧ p < 11 / 2) ∧
      (getPriceCategory p = "Premium" ↔ 11 / 2 ≤ p) := by
    intro p
    unfold getPriceCategory
    split_ifs with h₁ h₂
    · refine ⟨⟨fun _ => h₁, fun _ => rfl⟩, ⟨fun h => absurd h hbs, ?_⟩,
        ⟨fun h => absurd h hbp, ?_⟩⟩
      · rintro ⟨h, -⟩; exact absurd h₁ (not_lt.2 h)
      · intro h; exact absurd h₁ (not_lt.2 (le_trans (by norm_num) h))
    · refine ⟨⟨fun h => absurd h.symm hbs, fun h => absurd h h₁⟩,
        ⟨fun _ => ⟨not_lt.1 h₁, h₂⟩, fun _ => rfl⟩, ⟨fun h => absurd h hsp, ?_⟩⟩
      intro h; exact absurd h₂ (not_lt.2 h)
    · refine ⟨⟨fun h => absurd h.symm hbp, fun h => absurd h h₁⟩,
        ⟨fun h => absurd h.symm hsp, ?_⟩, ⟨fun _ => not_lt.1 h₂, fun _ => rfl⟩⟩
      rintro ⟨-, h⟩; exact absurd h h₂
  refine ⟨key, (key _).1.2 (by norm_num), (key _).2.1.2 (by norm_num),
    (key _).2.2.2 (by norm_num), ?_⟩
  intro ms r hr
  simp only [transformMovieDimension, List.mem_map] at hr
  obtain ⟨m, -, rfl⟩ := hr
  rfl

/-! ## Date keys -/

theorem digitChar_eq_iff (a b : Nat) : digitChar a = digitChar b ↔ a % 10 = b % 10 := by
  have ha : a % 10 < 10 := Nat.mod_lt _ (by decide)
  have hb : b % 10 < 10 := Nat.mod_lt _ (by decide)
  unfold digitChar
  generalize a % 10 = x at ha ⊢
  generalize b % 10 = y at hb ⊢
  interval_cases x <;> interval_cases y <;> decide

theorem digitChar_ne_dash (n : Nat) : digitChar n ≠ '-' := by
  have h : n % 10 < 10 := Nat.mod_lt _ (by decide)
  unfold digitChar
  generalize n % 10 = x at h ⊢
  interval_cases x <;> decide

theorem length_padDigits (w n : Nat) : (padDigits w n).length = w := by
  induction w generalizing n with
  | zero => rfl
  | succ w ih => simp [padDigits, ih]

theorem filter_padDigits (w n : Nat) :
    (padDigits w n).filter (fun c => c != '-') = padDigits w n := by
  rw [List.filter_eq_self]
  induction w generalizing n with
  | zero => intro c hc; simp [padDigits] at hc
  | succ w ih =>
    intro c hc
    simp only [padDigits, List.mem_append, List.mem_singleton] at hc
    rcases hc with hc | hc
    · exact ih _ c hc
    · subst hc
      simpa using digitChar_ne_dash n

theorem padDigits_inj (w : Nat) :
    ∀ a b : Nat, a < 10 ^ w → b < 10 ^ w → padDigits w a = padDigits w b → a = b := by
  induction w with
  | zero => intro a b ha hb _; simp at ha hb; omega
  | succ w ih =>
    intro a b ha hb h
    simp only [padDigits] at h
    obtain ⟨h₁, h₂⟩ := List.append_inj' h rfl
    have hd : a % 10 = b % 10 := (digitChar_eq_iff a b).1 (by simpa using h₂)
    have hq : a / 10 = b / 10 := by
      apply ih _ _ _ _ h₁
      · rw [Nat.div_lt_iff_lt_mul (by decide)]; rw [pow_succ] at ha; exact ha
      · rw [Nat.div_lt_iff_lt_mul (by decide)]; rw [pow_succ] at hb; exact hb
    omega

theorem filter_isoYear (y : Int) : (isoYear y).filter (fun c => c != '-') = keyYear y := by
  unfold isoYear keyYear
  split_ifs with h₁ h₂
  · exact filter_padDigits _ _
  · rw [List.filter_cons_of_neg (by decide), filter_padDigits]
  · rw [List.filter_cons_of_pos (by decide), filter_padDigits]

theorem removeDashes_isoDatePart (d : JSDate) :
    removeDashes (isoDatePart d)
      = String.mk (keyYear d.utcYear ++ padDigits 2 d.utcMonth ++ padDigits 2 d.utcDay) := by
  simp only [removeDashes, isoDatePart, List.filter_append, filter_isoYear]
  rw [List.filter_cons_of_neg (by decide), filter_padDigits,
    List.filter_cons_of_neg (by decide), filter_padDigits]

theorem keyYear_inj (y₁ y₂ : Int) (h₁ : -271821 ≤ y₁ ∧ y₁ ≤ 275760)
    (h₂ : -271821 ≤ y₂ ∧ y₂ ≤ 275760) (h : keyYear y₁ = keyYear y₂) : y₁ = y₂ := by
  have hlen := congrArg List.length h
  unfold keyYear at h hlen
  split_ifs at h hlen with a₁ b₁ a₂ b₂ a₂ b₂ <;>
    simp only [length_padDigits, List.length_cons] at hlen <;>
    first
      | omega
      | (have hy := padDigits_inj 4 _ _ (by omega) (by omega) h; omega)
      | (have hy := padDigits_inj 6 _ _ (by omega) (by omega) h; omega)
      | (have hy := padDigits_inj 6 _ _ (by omega) (by omega) (List.cons.inj h).2; omega)

/-- Removing the dashes loses nothing on the texts `toISOString` produces: two
dates with the same key have the same ISO date text. -/
theorem isoDatePart_eq_of_key_eq (d₁ d₂ : JSDate)
    (h : removeDashes (isoDatePart d₁) = removeDashes (isoDatePart d₂)) :
    isoDatePart d₁ = isoDatePart d₂ := by
  rw [removeDashes_isoDatePart, removeDashes_isoDatePart] at h
  have h' := congrArg String.data h
  simp only at h'
  obtain ⟨hym, hd⟩ := List.append_inj' h' (by simp [length_padDigits])
  obtain ⟨hy, hm⟩ := List.append_inj' hym (by simp [length_padDigits])
  have ey := keyYear_inj _ _ d₁.utcYear_range d₂.utcYear_range hy
  have em : d₁.utcMonth = d₂.utcMonth :=
    padDigits_inj 2 _ _ (by have := d₁.utcMonth_range; omega)
      (by have := d₂.utcMonth_range; omega) hm
  have ed : d₁.utcDay = d₂.utcDay :=
    padDigits_inj 2 _ _ (by have := d₁.utcDay_range; omega)
      (by have := d₂.utcDay_range; omega) hd
  unfold isoDatePart
  rw [ey, em, ed]

/-! ## Fact rows -/

theorem mapExcept_eq_ok_iff {α β ε : Type} (f : α → Except ε β) :
    ∀ (xs : List α) (ys : List β),
      mapExcept f xs = .ok ys ↔ List.Forall₂ (fun x y => f x = .ok y) xs ys := by
  intro xs
  induction xs with
  | nil =>
    intro ys
    cases ys with
    | nil => simp [mapExcept]
    | cons y ys => simp [mapExcept]
  | cons x xs ih =>
    intro ys
    unfold mapExcept
    cases hx : f x with
    | error e =>
      cases ys with
      | nil => simp
      | cons y ys => simp [hx]
    | ok y =>
      cases hxs : mapExcept f xs with
      | error e =>
        cases ys with
        | nil => simp
        | cons y' ys =>
          simp only [List.forall₂_cons, false_iff, not_and, reduceCtorEq]
          intro _ hf
          rw [← ih, hxs] at hf
          cases hf
      | ok zs =>
        cases ys with
        | nil => simp
        | cons y' ys =>
          simp only [Except.ok.injEq, List.cons.injEq, List.forall₂_cons, hx, ← ih, hxs]

theorem mapExcept_ok_of_forall {α β ε : Type} (f : α → Except ε β) :
    ∀ xs : List α, (∀ x ∈ xs, ∃ y, f x = .ok y) → ∃ ys, mapExcept f xs = .ok ys := by
  intro xs
  induction xs with
  | nil => intro _; exact ⟨[], rfl⟩
  | cons x xs ih =>
    intro h
    obtain ⟨y, hy⟩ := h x (List.mem_cons_self _ _)
    obtain ⟨ys, hys⟩ := ih fun x' hx' => h x' (List.mem_cons_of_mem _ hx')
    exact ⟨y :: ys, by simp [mapExcept, hy, hys]⟩

theorem mapExcept_error_of_mem {α β ε : Type} (f : α → Except ε β) :
    ∀ xs : List α, (∃ x ∈ xs, ∃ e, f x = .error e) →
      ∃ e, mapExcept f xs = .error e ∧ ∃ x ∈ xs, f x = .error e := by
  intro xs
  induction xs with
  | nil => rintro ⟨x, hx, -⟩; cases hx
  | cons x xs ih =>
    rintro ⟨x', hx', e, he⟩
    cases hx : f x with
    | error e₁ => exact ⟨e₁, by simp [mapExcept, hx], x, List.mem_cons_self _ _, hx⟩
    | ok y =>
      have hmem : x' ∈ xs := by
        rcases List.mem_cons.1 hx' with h | h
        · subst h; rw [hx] at he; cases he
        · exact h
      obtain ⟨e₂, h₂, x₂, hx₂, hf₂⟩ := ih ⟨x', hmem, e, he⟩
      exact ⟨e₂, by simp [mapExcept, hx, h₂], x₂, List.mem_cons_of_mem _ hx₂, hf₂⟩

/-- The row `factRow` returns is the one built from the four records its
lookups find; it returns a row exactly when the four lookups succeed. -/
theorem factRow_eq_ok_iff (newDate : String → JSDate) (cs : List Customer) (ms : List Movie)
    (ts : List Transaction) (item : TransactionItem) (row : FactRow) :
    factRow newDate cs ms ts item = .ok row ↔
      ∃ (t : Transaction) (c : Customer) (m : Movie) (l : LocationDimRow),
        ts.find? (fun t => t.id == item.transaction_id) = some t ∧
        cs.find? (fun c => c.id == t.customer_id) = some c ∧
        ms.find? (fun m => m.id == item.movie_id) = some m ∧
        (transformLocationDimension ts).find? (fun l => l.location_name == t.location)
          = some l ∧
        row =
          { date_key := removeDashes (isoDatePart (newDate t.date))
            customer_key := c.id
            movie_key := m.id
            location_key := l.location_key
            transaction_id := t.id
            quantity := 1
            base_price := item.price
            discount_amount := item.discount
            final_price :=
              JSNumber.toFixed2 (JSNumber.sub (.fin item.price) (.fin item.discount))
            discount_percentage :=
              JSNumber.toFixed2
                (JSNumber.mul (JSNumber.div (.fin item.discount) (.fin item.price)) (.fin 100))
            profit_margin :=
              JSNumber.toFixed2
                (JSNumber.mul
                  (JSNumber.div (JSNumber.sub (.fin item.price) (.fin item.discount))
                    (.fin item.price))
                  (.fin 100)) } := by
  unfold factRow
  cases ht : ts.find? (fun t => t.id == item.transaction_id) with
  | none => cases cs <;> simp
  | some t =>
    cases hc : cs.find? (fun c => c.id == t.customer_id) with
    | none => simp [hc]
    | some c =>
      cases hm : ms.find? (fun m => m.id == item.movie_id) with
      | none => simp [hc]
      | some m =>
        cases hl : (transformLocationDimension ts).find?
            (fun l => l.location_name == t.location) with
        | none => simp [hc, hl]
        | some l =>
          simp only [hc, hl, Except.ok.injEq]
          constructor
          · intro h
            exact ⟨t, c, m, l, rfl, hc, rfl, hl, h.symm⟩
          · rintro ⟨t', c', m', l', ht', hc', hm', hl', h⟩
            cases ht'
            rw [hc] at hc'
            cases hc'
            cases hm'
            rw [hl] at hl'
            cases hl'
            exact h.symm

/-- The location lookup of `factRow` succeeds for every transaction of the
list it is built from. -/
theorem find_location_of_mem (ts : List Transaction) (t : Transaction) (ht : t ∈ ts) :
    ∃ l, (transformLocationDimension ts).find? (fun l => l.location_name == t.location)
      = some l := by
  rw [← Option.isSome_iff_exists, List.find?_isSome]
  have hmem : t.location ∈ (transformLocationDimension ts).map fun r => r.location_name := by
    rw [transformLocationDimension_names, mem_setFromList]
    exact List.mem_map.2 ⟨t, ht, rfl⟩
  obtain ⟨l, hl, hname⟩ := List.mem_map.1 hmem
  exact ⟨l, hl, by simp [hname]⟩

theorem mapExcept_ok_mem {α β ε : Type} (f : α → Except ε β) (xs : List α) (ys : List β)
    (h : mapExcept f xs = .ok ys) : ∀ y ∈ ys, ∃ x ∈ xs, f x = .ok y := by
  rw [mapExcept_eq_ok_iff] at h
  induction h with
  | nil => intro y hy; cases hy
  | cons hxy _ ih =>
    intro y hy
    rcases List.mem_cons.1 hy with rfl | hy
    · exact ⟨_, List.mem_cons_self _ _, hxy⟩
    · obtain ⟨x, hx, hfx⟩ := ih y hy
      exact ⟨x, List.mem_cons_of_mem _ hx, hfx⟩

theorem factRow_ok_of_resolves (newDate : String → JSDate) (cs : List Customer)
    (ms : List Movie) (ts : List Transaction) (item : TransactionItem)
    (h : Resolves cs ms ts item) : ∃ row, factRow newDate cs ms ts item = .ok row := by
  obtain ⟨⟨t, ht, c₀, hc₀, hct⟩, m₀, hm₀, hmi⟩ := h
  obtain ⟨c, hc⟩ := Option.isSome_iff_exists.1
    (List.find?_isSome.2 ⟨c₀, hc₀, by simp [hct]⟩ :
      (cs.find? (fun c => c.id == t.customer_id)).isSome)
  obtain ⟨m, hm⟩ := Option.isSome_iff_exists.1
    (List.find?_isSome.2 ⟨m₀, hm₀, by simp [hmi]⟩ :
      (ms.find? (fun m => m.id == item.movie_id)).isSome)
  obtain ⟨l, hl⟩ := find_location_of_mem ts t (List.mem_of_find?_eq_some ht)
  exact ⟨_, (factRow_eq_ok_iff newDate cs ms ts item _).2 ⟨t, c, m, l, ht, hc, hm, hl, rfl⟩⟩

theorem transformFactSales_ok_of_resolves (newDate : String → JSDate) (cs : List Customer)
    (ms : List Movie) (ts : List Transaction) (items : List TransactionItem)
    (h : ∀ item ∈ items, Resolves cs ms ts item) :
    ∃ rows, transformFactSales newDate cs ms ts items = .ok rows :=
  mapExcept_ok_of_forall _ items fun item hi =>
    factRow_ok_of_resolves newDate cs ms ts item (h item hi)

/-! ## Date dimension -/

theorem transformDateDimension_date_keys (newDate : String → JSDate) (ts : List Transaction) :
    (transformDateDimension newDate ts).map (fun r => r.date_key)
      = (setFromList (ts.map fun t => isoDatePart (newDate t.date))).map removeDashes := by
  simp only [transformDateDimension, List.map_map, foldl_setAdd_map, setFromList]
  rfl

/-- C10. The `date_key` values of `transformDateDimension` have no duplicates
and are exactly the date keys of the transactions, computed as
`transformFactSales` computes the `date_key` of a fact row (ISO date part of the
timestamp, dashes removed): none is omitted and none is added. -/
theorem transformDateDimension_keys (newDate : String → JSDate) (ts : List Transaction) :
    ((transformDateDimension newDate ts).map fun r => r.date_key).Nodup ∧
    (∀ k : String, k ∈ ((transformDateDimension newDate ts).map fun r => r.date_key) ↔
      ∃ t ∈ ts, k = removeDashes (isoDatePart (newDate t.date))) ∧
    (∀ (cs : List Customer) (ms : List Movie) (item : TransactionItem) (row : FactRow),
      factRow newDate cs ms ts item = .ok row →
      ∃ t, ts.find? (fun t => t.id == item.transaction_id) = some t ∧
        row.date_key = removeDashes (isoDatePart (newDate t.date))) := by
  refine ⟨?_, ?_, ?_⟩
  · rw [transformDateDimension_date_keys]
    refine List.Nodup.map_on ?_ (nodup_setFromList _)
    intro x hx y hy hxy
    rw [mem_setFromList, List.mem_map] at hx hy
    obtain ⟨t₁, -, rfl⟩ := hx
    obtain ⟨t₂, -, rfl⟩ := hy
    exact isoDatePart_eq_of_key_eq _ _ hxy
  · intro k
    rw [transformDateDimension_date_keys, List.mem_map]
    constructor
    · rintro ⟨d, hd, rfl⟩
      rw [mem_setFromList, List.mem_map] at hd
      obtain ⟨t, ht, rfl⟩ := hd
      exact ⟨t, ht, rfl⟩
    · rintro ⟨t, ht, rfl⟩
      exact ⟨_, (mem_setFromList _ _).2 (List.mem_map.2 ⟨t, ht, rfl⟩), rfl⟩
  · intro cs ms item row h
    obtain ⟨t, c, m, l, ht, -, -, -, rfl⟩ := (factRow_eq_ok_iff _ _ _ _ _ _).1 h
    exact ⟨t, ht, rfl⟩

theorem mapExcept_ok_getElem {α β ε : Type} (f : α → Except ε β) (xs : List α) (ys : List β)
    (h : mapExcept f xs = .ok ys) :
    ys.length = xs.length ∧
    ∀ (i : Nat) (hy : i < ys.length) (hx : i < xs.length), f xs[i] = .ok ys[i] := by
  rw [mapExcept_eq_ok_iff, List.forall₂_iff_get] at h
  refine ⟨h.1.symm, ?_⟩
  intro i hy hx
  simpa using h.2 i hx hy

theorem resolves_of_factRow_ok (newDate : String → JSDate) (cs : List Customer)
    (ms : List Movie) (ts : List Transaction) (item : TransactionItem) (row : FactRow)
    (h : factRow newDate cs ms ts item = .ok row) : Resolves cs ms ts item := by
  obtain ⟨t, c, m, l, ht, hc, hm, -, -⟩ := (factRow_eq_ok_iff _ _ _ _ _ _).1 h
  refine ⟨⟨t, ht, c, List.mem_of_find?_eq_some hc, ?_⟩, m, List.mem_of_find?_eq_some hm, ?_⟩
  · simpa using List.find?_some hc
  · simpa using List.find?_some hm

/-- The error of `factRow`, case by case: reading `customer_id` when no
transaction is found and there is a customer, reading `date` when no transaction
is found and there is no customer, reading `id` when the transaction is found
and its customer or the movie is not. -/
theorem factRow_error_cases (newDate : String → JSDate) (cs : List Customer)
    (ms : List Movie) (ts : List Transaction) (item : TransactionItem) (e : JSError)
    (h : factRow newDate cs ms ts item = .error e) :
    (ts.find? (fun t => t.id == item.transaction_id) = none ∧ cs ≠ [] ∧
      e = .typeError "customer_id") ∨
    (ts.find? (fun t => t.id == item.transaction_id) = none ∧ cs = [] ∧
      e = .typeError "date") ∨
    (∃ t, ts.find? (fun t => t.id == item.transaction_id) = some t ∧
      (cs.find? (fun c => c.id == t.customer_id) = none ∨
        ms.find? (fun m => m.id == item.movie_id) = none) ∧
      e = .typeError "id") := by
  unfold factRow at h
  cases ht : ts.find? (fun t => t.id == item.transaction_id) with
  | none =>
    rw [ht] at h
    cases cs with
    | nil =>
      simp only [Except.error.injEq] at h
      exact Or.inr (Or.inl ⟨rfl, rfl, h.symm⟩)
    | cons c cs =>
      simp only [Except.error.injEq] at h
      exact Or.inl ⟨rfl, List.cons_ne_nil _ _, h.symm⟩
  | some t =>
    rw [ht] at h
    refine Or.inr (Or.inr ⟨t, rfl, ?_⟩)
    cases hc : cs.find? (fun c => c.id == t.customer_id) with
    | none =>
      simp only [hc, Except.error.injEq] at h
      exact ⟨Or.inl rfl, h.symm⟩
    | some c =>
      cases hm : ms.find? (fun m => m.id == item.movie_id) with
      | none =>
        simp only [hc, hm, Except.error.injEq] at h
        exact ⟨Or.inr rfl, h.symm⟩
      | some m =>
        obtain ⟨l, hl⟩ := find_location_of_mem ts t (List.mem_of_find?_eq_some ht)
        simp [hc, hm, hl] at h

theorem mapExcept_error_first {α β ε : Type} (f : α → Except ε β) :
    ∀ xs : List α, (∃ x ∈ xs, ∃ e, f x = .error e) →
      ∃ (i : Nat) (hi : i < xs.length) (e : ε), mapExcept f xs = .error e ∧
        f xs[i] = .error e ∧
        ∀ (j : Nat) (hj : j < xs.length), j < i → ∃ y, f xs[j] = .ok y := by
  intro xs
  induction xs with
  | nil => rintro ⟨x, hx, -⟩; cases hx
  | cons x xs ih =>
    rintro ⟨x', hx', e, he⟩
    cases hx : f x with
    | error e₁ =>
      refine ⟨0, Nat.succ_pos _, e₁, by simp [mapExcept, hx], by simpa using hx, ?_⟩
      intro j _ hj
      omega
    | ok y =>
      have hmem : x' ∈ xs := by
        rcases List.mem_cons.1 hx' with h | h
        · subst h; rw [hx] at he; cases he
        · exact h
      obtain ⟨i, hi, e₂, h₂, hf₂, hbefore⟩ := ih ⟨x', hmem, e, he⟩
      refine ⟨i + 1, Nat.succ_lt_succ hi, e₂, by simp [mapExcept, hx, h₂],
        by simpa using hf₂, ?_⟩
      intro j hj hji
      cases j with
      | zero => exact ⟨y, by simpa using hx⟩
      | succ j =>
        have hj' : j < xs.length := Nat.lt_of_succ_lt_succ hj
        simpa using hbefore j hj' (by omega)

theorem sample_resolves :
    ∀ item ∈ transaction_items, Resolves customers movies transactions item := by
  intro item hi
  simp only [transaction_items, List.mem_cons, List.mem_singleton, List.not_mem_nil,
    or_false] at hi
  rcases hi with rfl | rfl | rfl | rfl | rfl | rfl | rfl <;>
    exact ⟨⟨_, rfl, by decide⟩, by decide⟩

/-! ## Claims on the fact builder -/

/-- C1. Referential completeness: when every reference of every item resolves,
`transformFactSales` returns rows, and each row has a `date_key`, a
`customer_key`, a `movie_key` and a `location_key` that is the key of a row of
the date, customer, movie and location dimension built from the same records. -/
theorem transformFactSales_referential_completeness (newDate : String → JSDate)
    (cs : List Customer) (ms : List Movie) (ts : List Transaction)
    (items : List TransactionItem) (h : ∀ item ∈ items, Resolves cs ms ts item) :
    ∃ rows, transformFactSales newDate cs ms ts items = .ok rows ∧
      ∀ r ∈ rows,
        r.date_key ∈ ((transformDateDimension newDate ts).map fun d => d.date_key) ∧
        r.customer_key ∈ ((transformCustomerDimension cs).map fun c => c.customer_key) ∧
        r.movie_key ∈ ((transformMovieDimension ms).map fun m => m.movie_key) ∧
        r.location_key ∈ ((transformLocationDimension ts).map fun l => l.location_key) := by
  obtain ⟨rows, hrows⟩ := transformFactSales_ok_of_resolves newDate cs ms ts items h
  refine ⟨rows, hrows, ?_⟩
  intro r hr
  obtain ⟨item, -, hitem⟩ := mapExcept_ok_mem _ _ _ hrows r hr
  obtain ⟨t, c, m, l, ht, hc, hm, hl, rfl⟩ := (factRow_eq_ok_iff _ _ _ _ _ _).1 hitem
  refine ⟨?_, ?_, ?_, ?_⟩
  · rw [transformDateDimension_date_keys]
    exact List.mem_map.2 ⟨_, (mem_setFromList _ _).2
      (List.mem_map.2 ⟨t, List.mem_of_find?_eq_some ht, rfl⟩), rfl⟩
  · simp only [transformCustomerDimension, List.map_map, List.mem_map]
    exact ⟨c, List.mem_of_find?_eq_some hc, rfl⟩
  · simp only [transformMovieDimension, List.map_map, List.mem_map]
    exact ⟨m, List.mem_of_find?_eq_some hm, rfl⟩
  · exact List.mem_map.2 ⟨l, List.mem_of_find?_eq_some hl, rfl⟩

theorem transformFactSales_referential_completeness_witness :
    (∀ item ∈ transaction_items, Resolves customers movies transactions item) ∧
    ∃ rows, transformFactSales utcNewDate customers movies transactions transaction_items
        = .ok rows ∧
      ∀ r ∈ rows,
        r.date_key ∈ ((transformDateDimension utcNewDate transactions).map
          fun d => d.date_key) ∧
        r.customer_key ∈ ((transformCustomerDimension customers).map
          fun c => c.customer_key) ∧
        r.movie_key ∈ ((transformMovieDimension movies).map fun m => m.movie_key) ∧
        r.location_key ∈ ((transformLocationDimension transactions).map
          fun l => l.location_key) :=
  ⟨sample_resolves,
    transformFactSales_referential_completeness utcNewDate customers movies transactions
      transaction_items sample_resolves⟩

/-- C3. For an item whose references resolve, the location lookup of the fact
builder finds a row of `transformLocationDimension`; that row is the only row of
the dimension whose `location_name` is the location of the parent transaction,
and the fact row carries its `location_key`. -/
theorem factRow_location_key (newDate : String → JSDate) (cs : List Customer)
    (ms : List Movie) (ts : List Transaction) (item : TransactionItem)
    (h : Resolves cs ms ts item) :
    ∃ (row : FactRow) (t : Transaction) (l : LocationDimRow),
      factRow newDate cs ms ts item = .ok row ∧
      ts.find? (fun t => t.id == item.transaction_id) = some t ∧
      (transformLocationDimension ts).find? (fun l => l.location_name == t.location)
        = some l ∧
      l ∈ transformLocationDimension ts ∧
      l.location_name = t.location ∧
      row.location_key = l.location_key ∧
      ∀ l₂ ∈ transformLocationDimension ts, l₂.location_name = t.location → l₂ = l := by
  obtain ⟨row, hrow⟩ := factRow_ok_of_resolves newDate cs ms ts item h
  obtain ⟨t, c, m, l, ht, hc, hm, hl, rfl⟩ := (factRow_eq_ok_iff _ _ _ _ _ _).1 hrow
  have hname : l.location_name = t.location := by simpa using List.find?_some hl
  have hmem : l ∈ transformLocationDimension ts := List.mem_of_find?_eq_some hl
  refine ⟨_, t, l, hrow, ht, hl, hmem, hname, rfl, ?_⟩
  intro l₂ hl₂ hname₂
  exact List.inj_on_of_nodup_map (nodup_location_names ts) hl₂ hmem
    (hname₂.trans hname.symm)

theorem factRow_location_key_witness :
    Resolves customers movies transactions
        { movie_id := 203, transaction_id := 2, price := 6, discount := 1 / 2 } ∧
    ∃ (row : FactRow) (t : Transaction) (l : LocationDimRow),
      factRow utcNewDate customers movies transactions
        { movie_id := 203, transaction_id := 2, price := 6, discount := 1 / 2 } = .ok row ∧
      transactions.find? (fun t => t.id == (2 : Int)) = some t ∧
      (transformLocationDimension transactions).find?
        (fun l => l.location_name == t.location) = some l ∧
      l ∈ transformLocationDimension transactions ∧
      l.location_name = t.location ∧
      row.location_key = l.location_key ∧
      ∀ l₂ ∈ transformLocationDimension transactions,
        l₂.location_name = t.location → l₂ = l :=
  ⟨⟨⟨_, rfl, by decide⟩, by decide⟩,
    factRow_location_key utcNewDate customers movies transactions
      { movie_id := 203, transaction_id := 2, price := 6, discount := 1 / 2 }
      ⟨⟨_, rfl, by decide⟩, by decide⟩⟩

/-- C6. When every reference resolves, `transformFactSales` returns one row per
transaction item, in item order, each with quantity 1; on the sample data these
are 7 rows, and the row of the first item (movie 201, transaction 1, price 5.0,
discount 0.5) has `final_price` 4.5, `discount_percentage` 10 and
`profit_margin` 90. -/
theorem transformFactSales_one_row_per_item :
    (∀ (newDate : String → JSDate) (cs : List Customer) (ms : List Movie)
      (ts : List Transaction) (items : List TransactionItem),
      (∀ item ∈ items, Resolves cs ms ts item) →
      ∃ rows, transformFactSales newDate cs ms ts items = .ok rows ∧
        rows.length = items.length ∧
        ∀ (i : Nat) (hr : i < rows.length) (hi : i < items.length),
          factRow newDate cs ms ts items[i] = .ok rows[i] ∧
          rows[i].quantity = 1 ∧
          rows[i].transaction_id = items[i].transaction_id ∧
          rows[i].movie_key = items[i].movie_id ∧
          rows[i].base_price = items[i].price ∧
          rows[i].discount_amount = items[i].discount) ∧
    (∀ newDate : String → JSDate,
      ∃ rows, transformFactSales newDate customers movies transactions transaction_items
          = .ok rows ∧
        rows.length = 7 ∧
        ∃ r, rows[0]? = some r ∧
          r.movie_key = 201 ∧ r.transaction_id = 1 ∧ r.base_price = 5 ∧
          r.discount_amount = 1 / 2 ∧ r.quantity = 1 ∧
          r.final_price = .fin (9 / 2) ∧
          r.discount_percentage = .fin 10 ∧
          r.profit_margin = .fin 90) := by
  have general : ∀ (newDate : String → JSDate) (cs : List Customer) (ms : List Movie)
      (ts : List Transaction) (items : List TransactionItem),
      (∀ item ∈ items, Resolves cs ms ts item) →
      ∃ rows, transformFactSales newDate cs ms ts items = .ok rows ∧
        rows.length = items.length ∧
        ∀ (i : Nat) (hr : i < rows.length) (hi : i < items.length),
          factRow newDate cs ms ts items[i] = .ok rows[i] ∧
          rows[i].quantity = 1 ∧
          rows[i].transaction_id = items[i].transaction_id ∧
          rows[i].movie_key = items[i].movie_id ∧
          rows[i].base_price = items[i].price ∧
          rows[i].discount_amount = items[i].discount := by
    intro newDate cs ms ts items h
    obtain ⟨rows, hrows⟩ := transformFactSales_ok_of_resolves newDate cs ms ts items h
    obtain ⟨hlen, hget⟩ := mapExcept_ok_getElem _ _ _ hrows
    refine ⟨rows, hrows, hlen, ?_⟩
    intro i hr hi
    have hrow := hget i hr hi
    obtain ⟨t, c, m, l, ht, hc, hm, hl, heq⟩ := (factRow_eq_ok_iff _ _ _ _ _ _).1 hrow
    refine ⟨hrow, ?_, ?_, ?_, ?_, ?_⟩ <;> rw [heq]
    · simpa using List.find?_some ht
    · simpa using List.find?_some hm
  refine ⟨general, ?_⟩
  intro newDate
  obtain ⟨rows, hrows, hlen, hget⟩ :=
    general newDate customers movies transactions transaction_items sample_resolves
  have hlen7 : rows.length = 7 := by rw [hlen]; rfl
  refine ⟨rows, hrows, hlen7, ?_⟩
  have h0 : 0 < rows.length := by omega
  obtain ⟨hrow, hq, htid, hmk, hbp, hda⟩ := hget 0 h0 (by rw [← hlen]; exact h0)
  obtain ⟨t, c, m, l, -, -, -, -, heq⟩ := (factRow_eq_ok_iff _ _ _ _ _ _).1 hrow
  have hitem : transaction_items[0] =
      { movie_id := 201, transaction_id := 1, price := 5, discount := 1 / 2 } := rfl
  rw [hitem] at heq htid hmk hbp hda
  refine ⟨rows[0], by simp [List.getElem?_eq_getElem h0], hmk, htid, hbp, hda, hq, ?_, ?_, ?_⟩
  · rw [heq]
    exact JSNumber.sample_measures.1
  · rw [heq]
    exact JSNumber.sample_measures.2.1
  · rw [heq]
    exact JSNumber.sample_measures.2.2

theorem transformFactSales_one_row_per_item_witness :
    (∀ item ∈ transaction_items, Resolves customers movies transactions item) ∧
    ∃ rows, transformFactSales utcNewDate customers movies transactions transaction_items
        = .ok rows ∧ rows.length = transaction_items.length := by
  refine ⟨sample_resolves, ?_⟩
  obtain ⟨rows, h, hlen, -⟩ :=
    transformFactSales_one_row_per_item.1 utcNewDate customers movies transactions
      transaction_items sample_resolves
  exact ⟨rows, h, hlen⟩

/-- C7, as the code has it. For an item with `price > 0` whose references
resolve, the `profit_margin` of the emitted row is computed from the difference
`price - discount` itself and not from the row's rounded `final_price` (which
is `round(price - discount, 2)`).  In double precision: with `y` the rounded
difference, `z` the rounded quotient `y / price` and `q ≥ 0` the rounded
product `z * 100`, `profit_margin` is the double nearest to `n / 100` for
`n = ⌊100 q + 1/2⌋`, the rounding of `q` to 2 decimal places.  For
`0 ≤ discount ≤ price` and a price between `2 ^ -1000` and `2 ^ 1000`, `q` is
within `2 ^ -43` of the exact `(price - discount) / price * 100` and
`profit_margin` within `0.005 + 2 ^ -42` of it. -/
theorem factRow_profit_margin (newDate : String → JSDate) (cs : List Customer)
    (ms : List Movie) (ts : List Transaction) (item : TransactionItem)
    (h : Resolves cs ms ts item) (hp : 0 < item.price) :
    ∃ row, factRow newDate cs ms ts item = .ok row ∧
      row.final_price = JSNumber.toFixed2 (JSNumber.toDouble (item.price - item.discount)) ∧
      row.profit_margin
        = JSNumber.toFixed2
            (JSNumber.mul
              (JSNumber.div (JSNumber.toDouble (item.price - item.discount))
                (.fin item.price))
              (.fin 100)) ∧
      (∀ y z q : ℚ,
        JSNumber.toDouble (item.price - item.discount) = .fin y →
        JSNumber.toDouble (y / item.price) = .fin z →
        JSNumber.toDouble (z * 100) = .fin q →
        0 ≤ q → q < 10 ^ 21 →
        row.profit_margin = JSNumber.toDouble ((⌊100 * q + 1 / 2⌋ : ℤ) / 100)) ∧
      ((2 : ℚ) ^ (-1000 : ℤ) ≤ item.price → item.price ≤ 2 ^ (1000 : ℤ) →
        0 ≤ item.discount → item.discount ≤ item.price →
        ∃ y z q r : ℚ,
          JSNumber.toDouble (item.price - item.discount) = .fin y ∧
          JSNumber.toDouble (y / item.price) = .fin z ∧
          JSNumber.toDouble (z * 100) = .fin q ∧
          0 ≤ q ∧ q < 10 ^ 21 ∧
          |q - (item.price - item.discount) / item.price * 100| ≤ 2 ^ (-43 : ℤ) ∧
          row.profit_margin = .fin r ∧
          |r - (item.price - item.discount) / item.price * 100|
            ≤ 1 / 200 + 2 ^ (-42 : ℤ)) := by
  obtain ⟨row, hrow⟩ := factRow_ok_of_resolves newDate cs ms ts item h
  obtain ⟨t, c, m, l, -, -, -, -, heq⟩ := (factRow_eq_ok_iff _ _ _ _ _ _).1 hrow
  have hchain : ∀ y z q : ℚ,
      JSNumber.toDouble (item.price - item.discount) = .fin y →
      JSNumber.toDouble (y / item.price) = .fin z →
      JSNumber.toDouble (z * 100) = .fin q →
      JSNumber.mul
          (JSNumber.div (JSNumber.sub (.fin item.price) (.fin item.discount))
            (.fin item.price))
          (.fin 100) = .fin q := by
    intro y z q hy hz hq
    simp only [JSNumber.sub, hy, JSNumber.div, if_neg (ne_of_gt hp), hz, JSNumber.mul, hq]
  refine ⟨row, hrow, by rw [heq]; rfl, by rw [heq]; rfl, ?_, ?_⟩
  · intro y z q hy hz hq h₀ h₁
    rw [heq]
    simp only [hchain y z q hy hz hq]
    exact JSNumber.toFixed2_fin h₀ h₁
  · intro hp₁ hp₂ hd₀ hd₁
    obtain ⟨y, z, q, hy, hz, hq, hq₀, hq₁, hqe⟩ := JSNumber.margin_error hp₁ hp₂ hd₀ hd₁
    obtain ⟨r, hr, hre⟩ := JSNumber.toFixed2_error hq₀ hq₁
    refine ⟨y, z, q, r, hy, hz, hq, hq₀, lt_of_le_of_lt hq₁ (by norm_num), hqe, ?_, ?_⟩
    · rw [heq]
      simp only [hchain y z q hy hz hq]
      exact hr
    · have h43 : (2 : ℚ) ^ (-43 : ℤ) = 1 / 8796093022208 := by norm_num
      have h44 : (2 : ℚ) ^ (-44 : ℤ) = 1 / 17592186044416 := by norm_num
      have h42 : (2 : ℚ) ^ (-42 : ℤ) = 1 / 4398046511104 := by norm_num
      rw [h43] at hqe
      rw [h44] at hre
      rw [h42]
      rw [abs_le] at hqe hre ⊢
      constructor <;> linarith [hqe.1, hqe.2, hre.1, hre.2]

theorem factRow_profit_margin_witness :
    Resolves customers movies transactions
        { movie_id := 201, transaction_id := 1, price := 5, discount := 63 / 32 } ∧
    (0 : ℚ) < 5 ∧
    ∃ row, factRow utcNewDate customers movies transactions
        { movie_id := 201, transaction_id := 1, price := 5, discount := 63 / 32 } = .ok row ∧
      row.profit_margin = .fin (8531506544099983 / 140737488355328) ∧
      row.profit_margin = JSNumber.toDouble (6062 / 100) := by
  have hres : Resolves customers movies transactions
      { movie_id := 201, transaction_id := 1, price := 5, discount := 63 / 32 } :=
    ⟨⟨_, rfl, by decide⟩, by decide⟩
  obtain ⟨row, hrow, -, -, hround, -⟩ :=
    factRow_profit_margin utcNewDate customers movies transactions
      { movie_id := 201, transaction_id := 1, price := 5, discount := 63 / 32 } hres
      (by norm_num)
  have hpm := hround _ _ _ JSNumber.rounded_margin.1 JSNumber.rounded_margin.2.1
    JSNumber.rounded_margin.2.2.1 (by norm_num) (by norm_num)
  rw [JSNumber.rounded_margin.2.2.2.1] at hpm
  refine ⟨hres, by norm_num, row, hrow, ?_, ?_⟩
  · rw [hpm]
    exact JSNumber.rounded_margin.2.2.2.2
  · rw [hpm]
    norm_num

/-- C7 fails as stated. The item of price 2 and discount 0.125 resolves; its
row has as `final_price` the double nearest to 1.88 and as `profit_margin`
93.75, while the margin computed from that `final_price`,
`round(1.88 / 2 * 100, 2)`, is 94. -/
theorem profit_margin_counterexample :
    ∃ row, factRow utcNewDate customers movies transactions
        { movie_id := 201, transaction_id := 1, price := 2, discount := 1 / 8 } = .ok row ∧
      row.final_price = JSNumber.toDouble (188 / 100) ∧
      row.profit_margin = .fin (375 / 4) ∧
      specProfitMargin row.final_price 2 = .fin 94 ∧
      row.profit_margin ≠ specProfitMargin row.final_price 2 := by
  obtain ⟨row, hrow⟩ := factRow_ok_of_resolves utcNewDate customers movies transactions
    { movie_id := 201, transaction_id := 1, price := 2, discount := 1 / 8 }
    ⟨⟨_, rfl, by decide⟩, by decide⟩
  obtain ⟨t, c, m, l, -, -, -, -, heq⟩ := (factRow_eq_ok_iff _ _ _ _ _ _).1 hrow
  have hfinal : row.final_price = .fin (2116691824864133 / 1125899906842624) := by
    rw [heq]
    exact JSNumber.eighth_measures.1
  have hdouble : JSNumber.toDouble (188 / 100)
      = .fin (2116691824864133 / 1125899906842624) :=
    JSNumber.toDouble_eval_pos 0 8466767299456532 _ (by norm_num) (by norm_num)
      (by norm_num) (by norm_num) (by norm_num) (by norm_num) (by norm_num) (by norm_num)
  have hmargin : row.profit_margin = .fin (375 / 4) := by
    rw [heq]
    exact JSNumber.eighth_measures.2.1
  have hspec : specProfitMargin row.final_price 2 = .fin 94 := by
    rw [hfinal]
    exact JSNumber.eighth_measures.2.2
  refine ⟨row, hrow, by rw [hfinal, hdouble], hmargin, hspec, ?_⟩
  rw [hmargin, hspec]
  intro hne
  have := JSNumber.fin.inj hne
  norm_num at this

/-- C8, as the code has it. The fact builder has no guard on the price: when
every reference resolves, `transformFactSales` returns one row per item also
when an item has price 0, and the row of such an item has a
`discount_percentage` and a `profit_margin` that are not finite, `NaN` when the
discount is 0 and an infinity otherwise (the discount being a double, as every
JavaScript number is). -/
theorem transformFactSales_zero_price (newDate : String → JSDate) (cs : List Customer)
    (ms : List Movie) (ts : List Transaction) (items : List TransactionItem)
    (h : ∀ item ∈ items, Resolves cs ms ts item) :
    ∃ rows, transformFactSales newDate cs ms ts items = .ok rows ∧
      rows.length = items.length ∧
      ∀ (i : Nat) (hr : i < rows.length) (hi : i < items.length), items[i].price = 0 →
        rows[i].discount_percentage.isFinite = false ∧
        rows[i].profit_margin.isFinite = false ∧
        (items[i].discount = 0 →
          rows[i].discount_percentage = .nan ∧ rows[i].profit_margin = .nan) ∧
        (items[i].discount ≠ 0 →
          (rows[i].discount_percentage = .posInf ∨ rows[i].discount_percentage = .negInf) ∧
          (JSNumber.IsDouble items[i].discount →
            rows[i].profit_margin = .posInf ∨ rows[i].profit_margin = .negInf)) := by
  obtain ⟨rows, hrows⟩ := transformFactSales_ok_of_resolves newDate cs ms ts items h
  obtain ⟨hlen, hget⟩ := mapExcept_ok_getElem _ _ _ hrows
  refine ⟨rows, hrows, hlen, ?_⟩
  intro i hr hi hzero
  obtain ⟨t, c, m, l, -, -, -, -, heq⟩ := (factRow_eq_ok_iff _ _ _ _ _ _).1 (hget i hr hi)
  rw [heq]
  simp only [hzero, zero_sub]
  have hmargin : ∀ x : JSNumber,
      (JSNumber.toFixed2 (JSNumber.mul (JSNumber.div x (.fin 0)) (.fin 100))).isFinite
        = false := by
    intro x
    cases x with
    | fin a =>
      simp only [JSNumber.div, if_true]
      split_ifs <;> simp [JSNumber.mul, JSNumber.toFixed2, JSNumber.isFinite]
    | posInf => simp [JSNumber.div, JSNumber.mul, JSNumber.toFixed2, JSNumber.isFinite]
    | negInf => simp [JSNumber.div, JSNumber.mul, JSNumber.toFixed2, JSNumber.isFinite]
    | nan => simp [JSNumber.div, JSNumber.mul, JSNumber.toFixed2, JSNumber.isFinite]
  refine ⟨hmargin _, hmargin _, ?_, ?_⟩
  · intro hd
    rw [hd]
    simp [JSNumber.sub, JSNumber.toDouble_zero, JSNumber.div, JSNumber.mul,
      JSNumber.toFixed2]
  · intro hd
    constructor
    · simp only [JSNumber.div, if_true, if_neg hd]
      split_ifs <;> simp [JSNumber.mul, JSNumber.toFixed2]
    · intro hdbl
      have hexact : JSNumber.sub (.fin 0) (.fin items[i].discount)
          = .fin (-items[i].discount) := by
        simp only [JSNumber.sub, zero_sub]
        exact JSNumber.toDouble_of_isDouble (JSNumber.isDouble_neg hdbl)
      rw [hexact]
      simp only [JSNumber.div, if_true, if_neg (neg_ne_zero.2 hd)]
      split_ifs <;> simp [JSNumber.mul, JSNumber.toFixed2]

theorem transformFactSales_zero_price_witness :
    (∀ item ∈ [({ movie_id := 201, transaction_id := 1, price := 0, discount := 0 } :
        TransactionItem)], Resolves customers movies transactions item) ∧
    ∃ rows, transformFactSales utcNewDate customers movies transactions
        [{ movie_id := 201, transaction_id := 1, price := 0, discount := 0 }] = .ok rows ∧
      rows.length = 1 := by
  have hres : ∀ item ∈ [({ movie_id := 201, transaction_id := 1, price := 0, discount := 0 } :
      TransactionItem)], Resolves customers movies transactions item := by
    intro item hi
    rw [List.mem_singleton] at hi
    subst hi
    exact ⟨⟨_, rfl, by decide⟩, by decide⟩
  refine ⟨hres, ?_⟩
  obtain ⟨rows, h, hlen, -⟩ :=
    transformFactSales_zero_price utcNewDate customers movies transactions _ hres
  exact ⟨rows, h, hlen⟩

/-- C8 fails as stated. On the sample records with the single item of price 0
and discount 0 for movie 201 in transaction 1, `transformFactSales` raises
nothing: it returns one row, whose `discount_percentage` and `profit_margin`
are `NaN`. -/
theorem zero_price_counterexample :
    ∃ row, transformFactSales utcNewDate customers movies transactions
        [{ movie_id := 201, transaction_id := 1, price := 0, discount := 0 }] = .ok [row] ∧
      row.base_price = 0 ∧
      row.discount_percentage = .nan ∧
      row.profit_margin = .nan := by
  obtain ⟨row, hrow⟩ := factRow_ok_of_resolves utcNewDate customers movies transactions
    { movie_id := 201, transaction_id := 1, price := 0, discount := 0 }
    ⟨⟨_, rfl, by decide⟩, by decide⟩
  obtain ⟨t, c, m, l, -, -, -, -, heq⟩ := (factRow_eq_ok_iff _ _ _ _ _ _).1 hrow
  refine ⟨row, by simp [transformFactSales, mapExcept, hrow], ?_, ?_, ?_⟩ <;> rw [heq] <;>
    simp [JSNumber.sub, JSNumber.toDouble_zero, JSNumber.div, JSNumber.mul, JSNumber.toFixed2]

/-- C9, as the code has it. When some item has a reference that does not
resolve, `transformFactSales` returns no list: it ends with the `TypeError` that
`factRow` raises at the first item, in item order, with such a reference.  That
error is the one of reading `customer_id` when no transaction matches and the
customer list is not empty, of reading `date` when no transaction matches and
the customer list is empty, and of reading `id` when the transaction is found
and its customer or the movie of the item is not; it carries that property
name and not the missing id. -/
theorem transformFactSales_dangling (newDate : String → JSDate) (cs : List Customer)
    (ms : List Movie) (ts : List Transaction) (items : List TransactionItem)
    (h : ∃ item ∈ items, ¬ Resolves cs ms ts item) :
    ∃ (i : Nat) (hi : i < items.length) (e : JSError),
      transformFactSales newDate cs ms ts items = .error e ∧
      (∀ rows, transformFactSales newDate cs ms ts items ≠ .ok rows) ∧
      (∀ (j : Nat) (hj : j < items.length), j < i → Resolves cs ms ts items[j]) ∧
      ¬ Resolves cs ms ts items[i] ∧
      factRow newDate cs ms ts items[i] = .error e ∧
      (ts.find? (fun t => t.id == items[i].transaction_id) = none → cs ≠ [] →
        e = .typeError "customer_id") ∧
      (ts.find? (fun t => t.id == items[i].transaction_id) = none → cs = [] →
        e = .typeError "date") ∧
      (∀ t, ts.find? (fun t => t.id == items[i].transaction_id) = some t →
        (cs.find? (fun c => c.id == t.customer_id) = none ∨
          ms.find? (fun m => m.id == items[i].movie_id) = none) ∧
        e = .typeError "id") := by
  obtain ⟨item, hmem, hnot⟩ := h
  have hfail : ∃ e, factRow newDate cs ms ts item = .error e := by
    cases hf : factRow newDate cs ms ts item with
    | error e => exact ⟨e, rfl⟩
    | ok row => exact absurd (resolves_of_factRow_ok _ _ _ _ _ _ hf) hnot
  obtain ⟨i, hi, e, herr, hrow, hbefore⟩ :=
    mapExcept_error_first (factRow newDate cs ms ts) items ⟨item, hmem, hfail⟩
  have herr' : transformFactSales newDate cs ms ts items = .error e := herr
  have hnres : ¬ Resolves cs ms ts items[i] := by
    intro hres
    obtain ⟨row, hok⟩ := factRow_ok_of_resolves newDate cs ms ts _ hres
    rw [hrow] at hok
    cases hok
  refine ⟨i, hi, e, herr', ?_, ?_, hnres, hrow, ?_, ?_, ?_⟩
  · intro rows hrows
    rw [herr'] at hrows
    cases hrows
  · intro j hj hji
    obtain ⟨y, hy⟩ := hbefore j hj hji
    exact resolves_of_factRow_ok _ _ _ _ _ _ hy
  · intro hnone hcs
    rcases factRow_error_cases _ _ _ _ _ _ hrow with ⟨-, -, he⟩ | ⟨-, hnil, -⟩ | ⟨t, ht, -⟩
    · exact he
    · exact absurd hnil hcs
    · rw [hnone] at ht; cases ht
  · intro hnone hcs
    rcases factRow_error_cases _ _ _ _ _ _ hrow with ⟨-, hne, -⟩ | ⟨-, -, he⟩ | ⟨t, ht, -⟩
    · exact absurd hcs hne
    · exact he
    · rw [hnone] at ht; cases ht
  · intro t hsome
    rcases factRow_error_cases _ _ _ _ _ _ hrow with ⟨hn, -, -⟩ | ⟨hn, -, -⟩ | ⟨t', ht', hor, he⟩
    · rw [hn] at hsome; cases hsome
    · rw [hn] at hsome; cases hsome
    · rw [hsome] at ht'
      cases ht'
      exact ⟨hor, he⟩

theorem transformFactSales_dangling_witness :
    (∃ item ∈ [({ movie_id := 201, transaction_id := 99, price := 5, discount := 0 } :
        TransactionItem)], ¬ Resolves customers movies transactions item) ∧
    transformFactSales utcNewDate customers movies transactions
        [{ movie_id := 201, transaction_id := 99, price := 5, discount := 0 }]
      = .error (.typeError "customer_id") := by
  have hnone : transactions.find? (fun t => t.id == (99 : Int)) = none := rfl
  have hres : ∃ item ∈ [({ movie_id := 201, transaction_id := 99, price := 5, discount := 0 } :
      TransactionItem)], ¬ Resolves customers movies transactions item := by
    refine ⟨_, List.mem_singleton.2 rfl, ?_⟩
    rintro ⟨⟨t, ht, -⟩, -⟩
    rw [hnone] at ht
    cases ht
  refine ⟨hres, ?_⟩
  obtain ⟨i, hi, e, herr, -, -, -, -, hcust, -, -⟩ :=
    transformFactSales_dangling utcNewDate customers movies transactions _ hres
  have hi0 : i = 0 := by
    simp only [List.length_singleton] at hi
    omega
  subst hi0
  rw [herr, hcust hnone (by decide)]

/-- C9 fails as stated. Two items whose `transaction_id`, 98 and 99, match no
transaction end `transformFactSales` with one and the same error, the
`TypeError` of reading `customer_id`: the error names neither missing id. With
an empty customer list the same item ends it with the `TypeError` of reading
`date`, and an item whose `movie_id` 999 matches no movie ends it with the
`TypeError` of reading `id`. -/
theorem dangling_reference_counterexample :
    transformFactSales utcNewDate customers movies transactions
        [{ movie_id := 201, transaction_id := 98, price := 5, discount := 0 }]
      = .error (.typeError "customer_id") ∧
    transformFactSales utcNewDate customers movies transactions
        [{ movie_id := 201, transaction_id := 99, price := 5, discount := 0 }]
      = .error (.typeError "customer_id") ∧
    transformFactSales utcNewDate [] movies transactions
        [{ movie_id := 201, transaction_id := 99, price := 5, discount := 0 }]
      = .error (.typeError "date") ∧
    transformFactSales utcNewDate customers movies transactions
        [{ movie_id := 999, transaction_id := 1, price := 5, discount := 0 }]
      = .error (.typeError "id") := by
  refine ⟨rfl, rfl, rfl, rfl⟩

end StarSchemaETL
